import Mathlib

/-!
Verification of the GemScribe content pipeline: the response chunker
(`parseContent`), the chunk reassembler (`updateFullContentFromChunks`),
the prompt builder (`buildPrompt`) and the single-chunk regeneration flow,
shallowly embedded over JavaScript strings modelled as `List Char`.
-/

set_option maxRecDepth 20000

/-- JavaScript strings are modelled as lists of characters. -/
abbrev JStr := List Char

/-- Convert a Lean string literal into the `List Char` model. -/
def jstr (s : String) : JStr := s.data

/-- The JavaScript whitespace class: the characters matched by the regex
class `\s` and stripped by `String.prototype.trim`. -/
def isWs (c : Char) : Bool :=
  c = ' ' || c = '\t' || c = '\n' || c.val = 11 || c.val = 12 || c = '\r' ||
  c.val = 0xa0 || c.val = 0x1680 || (0x2000 ≤ c.val && c.val ≤ 0x200a) ||
  c.val = 0x2028 || c.val = 0x2029 || c.val = 0x202f || c.val = 0x205f ||
  c.val = 0x3000 || c.val = 0xfeff

/-- Drop leading JavaScript whitespace (the front half of `trim()`). -/
def trimStartL (l : JStr) : JStr := l.dropWhile isWs

/-- Drop trailing JavaScript whitespace (the back half of `trim()`). -/
def trimEndL (l : JStr) : JStr := (l.reverse.dropWhile isWs).reverse

/-- JavaScript `String.prototype.trim`. -/
def jsTrim (l : JStr) : JStr := trimEndL (trimStartL l)

/-- JavaScript `str.split('\n')`: cut at every newline, keeping empty parts. -/
def splitNl : JStr → List JStr
  | [] => [[]]
  | c :: r =>
    if c = '\n' then [] :: splitNl r
    else
      match splitNl r with
      | [] => [[c]]
      | h :: t => (c :: h) :: t

/-- JavaScript `parts.join('\n')`. -/
def joinNl : List JStr → JStr
  | [] => []
  | [x] => x
  | x :: y :: t => x ++ '\n' :: joinNl (y :: t)

/-- JavaScript `parts.join(sep)`. -/
def joinSep (sep : JStr) : List JStr → JStr
  | [] => []
  | [x] => x
  | x :: y :: t => x ++ sep ++ joinSep sep (y :: t)

/-- Does the list begin with three consecutive `#` characters? -/
def hhh3 : JStr → Bool
  | a :: b :: c :: _ => a = '#' && b = '#' && c = '#'
  | _ => false

/-- Does `###` occur anywhere in the list (at any position)? -/
def anyHHH : JStr → Bool
  | [] => false
  | c :: r => hhh3 (c :: r) || anyHHH r

/-- Does the list begin with the heading marker matched by the source regex
`###\s`: three `#` characters followed by a whitespace character? -/
def isHeadMarker : JStr → Bool
  | a :: b :: c :: d :: _ => a = '#' && b = '#' && c = '#' && isWs d
  | _ => false

/-- Worker for `splitSections`.  It scans the input one character at a time,
accumulating the current segment in reverse in `acc`; a zero-width lookahead
match of `###\s` starts a new segment unless it sits at the start of the
current segment (mirroring how JavaScript `split` skips a zero-length match
at the position where the previous segment started). -/
def splitAux : JStr → JStr → List JStr
  | [], acc => [acc.reverse]
  | c :: rest, acc =>
    if isHeadMarker (c :: rest) && !acc.isEmpty then
      acc.reverse :: splitAux rest [c]
    else
      splitAux rest (c :: acc)

/-- JavaScript `rawContent.split(/(?=###\s)/)`. -/
def splitSections (s : JStr) : List JStr := splitAux s []

/-- JavaScript `line.replace('###', '')`: remove the first occurrence of
`###`, leaving the rest of the string unchanged. -/
def replaceFirstHHH : JStr → JStr
  | '#' :: '#' :: '#' :: r => r
  | c :: r => c :: replaceFirstHHH r
  | [] => []

/-- One addressable unit of generated output (`GeneratedContentChunk` in
`types.ts`): a positional id, a title and a body. -/
structure GeneratedContentChunk where
  id : JStr
  title : JStr
  content : JStr
deriving DecidableEq

/-- The response chunker `parseContent` from the content-output component:
split the raw text before every `###\s` match, discard whitespace-only
segments, fall back to a single default-titled chunk when at most one
segment remains and the text is non-blank, and otherwise turn each segment
into a chunk whose title is its first line with `###` stripped and whose
body is the remaining lines, both trimmed. -/
def parseContent (rawContent : JStr) : List GeneratedContentChunk :=
  if rawContent.isEmpty then []
  else
    let sections := (splitSections rawContent).filter (fun s => !(jsTrim s).isEmpty)
    if sections.length ≤ 1 ∧ ¬(jsTrim rawContent).isEmpty then
      [{ id := jstr "chunk-0", title := jstr "Generated Content",
         content := jsTrim rawContent }]
    else
      sections.enum.map (fun p =>
        { id := jstr ("chunk-" ++ toString p.1)
          title := jsTrim (replaceFirstHHH ((splitNl (jsTrim p.2)).headD []))
          content := jsTrim (joinNl (splitNl (jsTrim p.2)).tail) })

/-- The chunk reassembler `updateFullContentFromChunks`: emit
`### title`, a blank line, then the body for each chunk, and join the
chunks with a blank line. -/
def updateFullContentFromChunks (chunks : List GeneratedContentChunk) : JStr :=
  joinSep (jstr "\n\n")
    (chunks.map (fun c => jstr "### " ++ c.title ++ jstr "\n\n" ++ c.content))

/-- The chunk-edit handler `handleUpdateChunk`: replace the body of the
chunk with the given id, leaving every other chunk untouched. -/
def handleUpdateChunk (chunks : List GeneratedContentChunk) (id newContent : JStr) :
    List GeneratedContentChunk :=
  chunks.map (fun c => if c.id = id then { c with content := newContent } else c)

/-- The generation parameters (`ContentGenerationParams` in `types.ts`).
Optional fields model TypeScript `?: string` fields; JavaScript truthiness
treats both a missing field and an empty string as absent. -/
structure ContentGenerationParams where
  productName : JStr
  contentType : JStr
  country : JStr
  tone : JStr
  contentLength : Option JStr := none
  starRating : Option JStr := none
  seoKeywords : Option JStr := none
  companyName : Option JStr := none
  occasion : Option JStr := none
  brandVoice : Option JStr := none
  generateAbTest : Bool := false
  generateSocialPost : Bool := false
  productImage : Option (JStr × JStr) := none
deriving DecidableEq

/-- JavaScript truthiness of a required string field. -/
def truthyS (s : JStr) : Bool := !s.isEmpty

/-- JavaScript truthiness of an optional string field. -/
def truthyO : Option JStr → Bool
  | none => false
  | some s => !s.isEmpty

/-- The string value interpolated for an optional field (only used behind a
truthiness guard in the source). -/
def oVal (o : Option JStr) : JStr := o.getD []

/-- One syntactic piece of the prompt: either fixed template text from the
source or an interpolated parameter value. -/
inductive PPiece where
  | fixd (s : JStr)
  | fld (s : JStr)
deriving DecidableEq

/-- The character content of a piece. -/
def pval : PPiece → JStr
  | .fixd s => s
  | .fld s => s

/-- Concatenate the pieces back into the prompt string. -/
def render (ps : List PPiece) : JStr := (ps.map pval).flatten

/-- The fixed role/style header of the base prompt. -/
def introP : JStr := jstr "\nYou are an expert, world-class e-commerce copywriter for fashion and jewelry brands. Your writing is sophisticated, engaging, and SEO-optimized.\n\n**CRITICAL INSTRUCTION:** Your final output should ONLY be the generated content itself, formatted in markdown with \"###\" for each distinct section/title. DO NOT repeat the input parameters like \"Product Name:\", \"Tone:\", etc., in your response. The product name and keywords should be woven naturally into the text.\n\n---\n**CONTENT DETAILS**\n---\n"

/-- The parameter-echo block of the base prompt: required labels plus the
presence-gated optional labels. -/
def paramGroup (p : ContentGenerationParams) : List PPiece :=
  [.fixd (jstr "**Product Name/Link:** "), .fld p.productName, .fixd (jstr "\n"),
   .fixd (jstr "**Tone of Voice:** "), .fld p.tone, .fixd (jstr "\n"),
   .fixd (jstr "**Target Audience/Country:** "), .fld p.country, .fixd (jstr "\n")]
  ++ (if truthyO p.companyName then
        [.fixd (jstr "**Company Name:** "), .fld (oVal p.companyName), .fixd (jstr "\n")]
      else [])
  ++ (if truthyO p.occasion then
        [.fixd (jstr "**Occasion:** "), .fld (oVal p.occasion), .fixd (jstr "\n")]
      else [])
  ++ (if truthyO p.brandVoice then
        [.fixd (jstr "**Brand Voice Guidelines:** "), .fld (oVal p.brandVoice), .fixd (jstr "\n")]
      else [])
  ++ (if truthyO p.seoKeywords then
        [.fixd (jstr "**SEO Keywords to include naturally:** "), .fld (oVal p.seoKeywords), .fixd (jstr "\n")]
      else [])

/-- The generation-task section header. -/
def taskHeaderP : JStr := jstr "\n---\n**GENERATION TASK**\n---\n"

/-- The text of the SEO-hook directive. -/
def seoDirectiveText : JStr := jstr "\n**SEO Focus:** Start with a compelling, SEO-optimized introductory sentence or meta description (under 160 characters) that naturally incorporates the primary keywords. This sentence should serve as a powerful hook."

/-- The SEO-hook directive, present only when both seoKeywords and
productName are truthy (the `seoDirective` local of `buildPrompt`). -/
def seoDirectiveStr (p : ContentGenerationParams) : JStr :=
  if truthyO p.seoKeywords && truthyS p.productName then seoDirectiveText
  else []

/-- The Product Description task directive (leading sentence). -/
def pdTask : JStr := jstr "**Task:** Write a compelling product description."

/-- The Product Description task directive (text after the SEO hook). -/
def pdTask2 : JStr := jstr " Then, detail the key features and benefits, and end with a call to action. Weave the SEO keywords throughout the description."

/-- The Product Reviews task directive. -/
def revTask : JStr := jstr "**Task:** Generate three distinct and realistic product reviews from different customer personas (e.g., a gift buyer, a long-time fan, a first-time customer)."

/-- The star-rating tail of the reviews directive. -/
def revStarTail : JStr := jstr " rating. You can represent the stars visually (e.g., ⭐⭐⭐⭐⭐). Do not add any other metadata like \x27Product Name\x27 to the review body."

/-- The Social Media Post task directive (leading sentence). -/
def smpTask : JStr := jstr "**Task:** Create an engaging social media post suitable for platforms like Instagram or Facebook."

/-- The Social Media Post task directive (text after the SEO hook). -/
def smpTask2 : JStr := jstr " Include relevant, popular hashtags at the end."

/-- The Email Campaign task directive (leading sentence). -/
def emTask : JStr := jstr "**Task:** Write copy for an email campaign. It MUST include an attention-grabbing subject line and a clear call-to-action (CTA) button text."

/-- The Email Campaign task directive (text after the SEO hook). -/
def emTask2 : JStr := jstr " The email body should expand on this hook. Format it like:\n### Subject: [Your Subject Here]\n\n[Email body here]\n\n### CTA Button: [Your CTA Text Here]"

/-- The Blog Post Intro task directive (leading sentence). -/
def blogTask : JStr := jstr "**Task:** Write an introductory paragraph for a blog post about this product."

/-- The Blog Post Intro task directive (text after the SEO hook). -/
def blogTask2 : JStr := jstr " It should hook the reader and briefly state what the post will cover."

/-- The Ad Copy task directive. -/
def adTask : JStr := jstr "**Task:** Write two short, punchy ad copy variations. Each should have a clear headline and a concise body text. Format it like:\n### Ad 1: [Headline]\n\n[Body]\n\n### Ad 2: [Headline]\n\n[Body]"

/-- The fallback task directive for unrecognized content types. -/
def fallbackTask : JStr := jstr "**Task:** Generate the content as requested."

/-- The content-type dispatch of `buildPrompt` (the `switch` statement),
as a piece list. -/
def switchGroup (p : ContentGenerationParams) : List PPiece :=
  if p.contentType = jstr "Product Description" then
    [.fixd pdTask, .fixd (seoDirectiveStr p), .fixd pdTask2]
    ++ (if truthyO p.contentLength ∧ oVal p.contentLength ≠ jstr "Default" then
          [.fixd (jstr " Keep the length "), .fld (oVal p.contentLength), .fixd (jstr ".")]
        else [])
  else if p.contentType = jstr "Product Reviews (3)" then
    [.fixd revTask]
    ++ (if truthyO p.starRating then
          [.fixd (jstr " The reviews should reflect a "), .fld (oVal p.starRating), .fixd revStarTail]
        else [])
  else if p.contentType = jstr "Social Media Post" then
    [.fixd smpTask, .fixd (seoDirectiveStr p), .fixd smpTask2]
  else if p.contentType = jstr "Email Campaign" then
    [.fixd emTask, .fixd (seoDirectiveStr p), .fixd emTask2]
  else if p.contentType = jstr "Blog Post Intro" then
    [.fixd blogTask, .fixd (seoDirectiveStr p), .fixd blogTask2]
  else if p.contentType = jstr "Ad Copy" then
    [.fixd adTask]
  else
    [.fixd fallbackTask]

/-- The A/B-test extra directive. -/
def abTestP : JStr := jstr "\n**Also generate one A/B test variant** for the primary content. Title it \"### A/B Test Variant: [Original Title]\"."

/-- The companion-social-post extra directive. -/
def socialP : JStr := jstr "\n**Also generate a related social media post**. Title it \"### Social Media Post\"."

/-- The globally appended extras: A/B-test variant and companion social
post, each behind its flag. -/
def extraGroup (p : ContentGenerationParams) : List PPiece :=
  (if p.generateAbTest then [.fixd abTestP] else [])
  ++ (if p.generateSocialPost ∧ p.contentType ≠ jstr "Social Media Post" then
        [.fixd socialP] else [])

/-- The full piece list of the base prompt (`basePrompt` in the source, as
it stands when the regeneration branch is reached). -/
def promptPieces (p : ContentGenerationParams) : List PPiece :=
  [.fixd introP] ++ paramGroup p
  ++ [.fixd taskHeaderP]
  ++ [.fixd (jstr "**Content Type to Generate:** "), .fld p.contentType, .fixd (jstr "\n")]
  ++ switchGroup p ++ [.fixd (jstr "\n")]
  ++ extraGroup p

/-- The closing line appended to the base prompt in non-regeneration mode. -/
def finalLineP : JStr := jstr "\nNow, generate the content based on these instructions."

/-- The fixed wrapper text before the target chunk title in regeneration
mode. -/
def wrapA : JStr := jstr "\nYou are an expert e-commerce copywriter. Based on the original parameters provided below, your task is to regenerate ONLY the content for the section titled \""

/-- The fixed wrapper text between the target chunk title and the embedded
base prompt in regeneration mode. -/
def wrapB : JStr := jstr "\". \n\n**CRITICAL INSTRUCTION:** Provide ONLY the new text for this section. Do not include the title or any markdown like \"###\". Just the raw, regenerated content.\n\n---\n**ORIGINAL PARAMETERS**\n---\n"

/-- The instruction sentence of the regeneration wrapper demanding only
the raw replacement text without a heading. -/
def criticalInstrText : JStr := jstr "Provide ONLY the new text for this section. Do not include the title or any markdown like \"###\". Just the raw, regenerated content."

/-- The prompt builder `buildPrompt` from the Gemini service: build the
base prompt from the parameters; with a target chunk, return the
regeneration wrapper around it, otherwise append the closing line. -/
def buildPrompt (p : ContentGenerationParams)
    (chunkToRegen : Option GeneratedContentChunk) : JStr :=
  match chunkToRegen with
  | some k => wrapA ++ k.title ++ wrapB ++ render (promptPieces p) ++ jstr "\n"
  | none => render (promptPieces p) ++ finalLineP

/-- The defined content-type labels (`CONTENT_TYPES` in `constants.ts`). -/
def contentTypesL : List JStr :=
  [jstr "Product Description", jstr "Product Reviews (3)", jstr "Social Media Post",
   jstr "Email Campaign", jstr "Blog Post Intro", jstr "Ad Copy"]

/-- The content types whose task directive embeds the SEO hook. -/
def seoTypesL : List JStr :=
  [jstr "Product Description", jstr "Social Media Post",
   jstr "Email Campaign", jstr "Blog Post Intro"]

/-- The task directive that `buildPrompt` emits for a given content-type
label (the leading fixed sentence of each `switch` branch). -/
def taskDirectiveFor (ct : JStr) : JStr :=
  if ct = jstr "Product Description" then pdTask
  else if ct = jstr "Product Reviews (3)" then revTask
  else if ct = jstr "Social Media Post" then smpTask
  else if ct = jstr "Email Campaign" then emTask
  else if ct = jstr "Blog Post Intro" then blogTask
  else if ct = jstr "Ad Copy" then adTask
  else fallbackTask

/-- The error message thrown on an empty one-shot regeneration response. -/
def emptyRespMsg : JStr := jstr "Received an empty response from the AI."

/-- The wrapping prefix the service catch-block puts on error messages. -/
def regenFailPre : JStr := jstr "Failed to regenerate content: "

/-- The one-shot regeneration service call `regenerateContentChunk`,
with the external generation call supplied as an oracle from the sent
prompt to either a transport error or the (possibly missing) response
text.  An empty or missing text raises the empty-response error; any
error is wrapped by the catch block; a truthy text is returned trimmed. -/
def regenerateContentChunkM
    (call : JStr → Except JStr (Option JStr))
    (p : ContentGenerationParams) (k : GeneratedContentChunk) :
    Except JStr JStr :=
  match call (buildPrompt p (some k)) with
  | .error m => .error (regenFailPre ++ m)
  | .ok t =>
    if truthyO t then .ok (jsTrim (oVal t))
    else .error (regenFailPre ++ emptyRespMsg)

/-- The UI handler `handleRegenerateChunk`: on success, replace the target
chunk body and emit reassembled raw text; on failure, leave the chunk
list untouched and emit nothing. -/
def handleRegenerateChunkM
    (call : JStr → Except JStr (Option JStr))
    (p : ContentGenerationParams) (chunks : List GeneratedContentChunk)
    (k : GeneratedContentChunk) :
    List GeneratedContentChunk × Option JStr :=
  match regenerateContentChunkM call p k with
  | .error _ => (chunks, none)
  | .ok newContent =>
    let newChunks := chunks.map
      (fun c => if c.id = k.id then { c with content := newContent } else c)
    (newChunks, some (updateFullContentFromChunks newChunks))

/-- Boolean scanner: is the first list a prefix of the second? -/
def prefB : JStr → JStr → Bool
  | [], _ => true
  | _ :: _, [] => false
  | a :: as, b :: bs => a == b && prefB as bs

/-- Boolean scanner: is the first list a suffix of the second? -/
def sufB (n h : JStr) : Bool := prefB n.reverse h.reverse

/-- Boolean scanner: does the first list occur contiguously inside the
second? -/
def infB : JStr → JStr → Bool
  | n, [] => n.isEmpty
  | n, c :: t => prefB n (c :: t) || infB n t

/-- The marker that identifies the SEO-hook directive. -/
def seoMarker : JStr := jstr "**SEO Focus:**"

/-- A fixed template string is safe for a needle when the needle does not
occur inside it and no nonempty proper prefix of the needle is a suffix of
it (so no occurrence of the needle can start inside this piece and spill
over its right edge). -/
def fixedOkP (n s : JStr) : Prop :=
  ¬ (n <:+: s) ∧ ∀ k, 0 < k → k < n.length → ¬ (n.take k <:+ s)

/-- Boolean check for `fixedOkP`. -/
def fixedOkB (n s : JStr) : Bool :=
  !infB n s && (List.range n.length).all (fun k => k == 0 || !sufB (n.take k) s)

/-- Safety of a prompt piece for a needle: fixed pieces must be
`fixedOkP`; interpolated fields must not contain the needle's head
character at all. -/
def pieceOkP (n : JStr) : PPiece → Prop
  | .fixd s => fixedOkP n s
  | .fld s => n.headD ' ' ∉ s

/-- The interpolated parameter fields contain no `*` character (and hence
cannot host any part of a `**`-delimited template directive). -/
def starFree (p : ContentGenerationParams) : Prop :=
  '*' ∉ p.productName ∧ '*' ∉ p.tone ∧ '*' ∉ p.country ∧ '*' ∉ p.contentType ∧
  '*' ∉ oVal p.companyName ∧ '*' ∉ oVal p.occasion ∧ '*' ∉ oVal p.brandVoice ∧
  '*' ∉ oVal p.seoKeywords ∧ '*' ∉ oVal p.contentLength ∧ '*' ∉ oVal p.starRating

instance (p : ContentGenerationParams) : Decidable (starFree p) := by
  unfold starFree
  infer_instance

/-- The heading-marker prefix used by the reassembler. -/
def hmS : JStr := jstr "### "

/-- The blank-line separator used by the reassembler. -/
def nnS : JStr := jstr "\n\n"

/-- The text a single chunk contributes to the reassembled raw text. -/
def partOf (c : GeneratedContentChunk) : JStr :=
  hmS ++ c.title ++ nnS ++ c.content

/-- The reassembled raw text cut into the segments the splitter should
recover: every chunk's part, with the joining blank line attached to the
end of every part but the last. -/
def segsOf : List GeneratedContentChunk → List JStr
  | [] => []
  | [c] => [partOf c]
  | c :: c' :: r => (partOf c ++ nnS) :: segsOf (c' :: r)

/-- A chunk is well formed for round-tripping: nonempty trimmed single-line
title without `###`, and nonempty trimmed body without `###`. -/
def wfChunk (c : GeneratedContentChunk) : Prop :=
  c.title ≠ [] ∧ jsTrim c.title = c.title ∧ '\n' ∉ c.title ∧
  anyHHH c.title = false ∧
  c.content ≠ [] ∧ jsTrim c.content = c.content ∧ anyHHH c.content = false

instance (c : GeneratedContentChunk) : Decidable (wfChunk c) := by
  unfold wfChunk
  infer_instance

/-- Projection of a chunk to the data the round-trip law compares. -/
def tcOf (c : GeneratedContentChunk) : JStr × JStr := (c.title, c.content)

/-- Sample parameters: the §8 scenario of the specification. -/
def auroraParams : ContentGenerationParams :=
  { productName := jstr "Aurora Necklace", contentType := jstr "Ad Copy",
    country := jstr "USA", tone := jstr "Professional" }

/-- Sample parameters with SEO keywords but the Ad Copy content type. -/
def adSeoParams : ContentGenerationParams :=
  { productName := jstr "Aurora Necklace", contentType := jstr "Ad Copy",
    country := jstr "USA", tone := jstr "Professional",
    seoKeywords := some (jstr "gold necklace") }

/-- Sample parameters with SEO keywords and the Blog Post Intro type. -/
def blogSeoParams : ContentGenerationParams :=
  { productName := jstr "Aurora Necklace", contentType := jstr "Blog Post Intro",
    country := jstr "USA", tone := jstr "Professional",
    seoKeywords := some (jstr "gold necklace") }

/-- Sample parameters with an unrecognized content type. -/
def recipeParams : ContentGenerationParams :=
  { productName := jstr "Aurora Necklace", contentType := jstr "Recipe",
    country := jstr "USA", tone := jstr "Professional" }

/-- A sample target chunk for regeneration. -/
def sampleChunk : GeneratedContentChunk :=
  ⟨jstr "chunk-1", jstr "Key Features", jstr "old body"⟩

/-- A sample displayed chunk list. -/
def sampleChunks : List GeneratedContentChunk :=
  [⟨jstr "chunk-0", jstr "Intro", jstr "first"⟩, sampleChunk]

/-- A well-formed two-chunk list for the round-trip witness. -/
def wfChunks : List GeneratedContentChunk :=
  [⟨jstr "a", jstr "Headline", jstr "first body"⟩,
   ⟨jstr "b", jstr "Details", jstr "second body"⟩]

/-- An external call that reports a missing response text. -/
def callNoText : JStr → Except JStr (Option JStr) := fun _ => .ok none

/-- An external call that returns a whitespace-only response text. -/
def callWsText : JStr → Except JStr (Option JStr) := fun _ => .ok (some (jstr "   "))

/-- An external call that returns a padded response text. -/
def callPadText : JStr → Except JStr (Option JStr) := fun _ => .ok (some (jstr " new body "))

/-- `prefB` decides list-prefix. -/
theorem prefB_eq (n h : JStr) : prefB n h = true ↔ n <+: h := by
  induction n generalizing h with
  | nil =>
    simp only [prefB]
    exact ⟨fun _ => ⟨h, rfl⟩, fun _ => trivial⟩
  | cons a as ih =>
    cases h with
    | nil =>
      simp only [prefB]
      constructor
      · intro hf; cases hf
      · rintro ⟨t, ht⟩; cases ht
    | cons b bs =>
      simp only [prefB, Bool.and_eq_true, beq_iff_eq, ih]
      constructor
      · rintro ⟨rfl, t, rfl⟩; exact ⟨t, rfl⟩
      · rintro ⟨t, ht⟩
        injection ht with h1 h2
        exact ⟨h1, t, h2⟩

/-- `sufB` decides list-suffix. -/
theorem sufB_eq (n h : JStr) : sufB n h = true ↔ n <:+ h := by
  rw [sufB, prefB_eq]
  constructor
  · rintro ⟨t, ht⟩
    refine ⟨t.reverse, ?_⟩
    have h2 := congrArg List.reverse ht
    simpa using h2
  · rintro ⟨s, rfl⟩
    exact ⟨s.reverse, by simp⟩

/-- `infB` decides contiguous containment. -/
theorem infB_eq (n h : JStr) : infB n h = true ↔ n <:+: h := by
  induction h with
  | nil =>
    simp only [infB, List.isEmpty_iff]
    constructor
    · rintro rfl; exact ⟨[], [], rfl⟩
    · rintro ⟨s, t, hst⟩
      have h1 := List.append_eq_nil.mp hst
      exact (List.append_eq_nil.mp h1.1).2
  | cons c t ih =>
    simp only [infB, Bool.or_eq_true, prefB_eq, ih]
    constructor
    · rintro (⟨u, hu⟩ | ⟨s, u, hu⟩)
      · exact ⟨[], u, by simpa using hu⟩
      · exact ⟨c :: s, u, by simpa using hu⟩
    · rintro ⟨s, u, hsu⟩
      cases s with
      | nil =>
        left
        exact ⟨u, by simpa using hsu⟩
      | cons d s' =>
        right
        simp only [List.cons_append] at hsu
        injection hsu with h1 h2
        exact ⟨s', u, h2⟩

/-- The head of a `dropWhile` residue falsifies the predicate. -/
theorem dropWhile_head_false {p : Char → Bool} {l t : JStr} {c : Char}
    (h : l.dropWhile p = c :: t) : p c = false := by
  induction l with
  | nil => cases h
  | cons a as ih =>
    rw [List.dropWhile_cons] at h
    by_cases hp : p a = true
    · rw [if_pos hp] at h
      exact ih h
    · rw [if_neg hp] at h
      injection h with h1 _
      subst h1
      cases hpa : p a with
      | false => rfl
      | true => exact absurd hpa hp

/-- `dropWhile` is idempotent. -/
theorem dw_dw (p : Char → Bool) (l : JStr) :
    (l.dropWhile p).dropWhile p = l.dropWhile p := by
  cases h : l.dropWhile p with
  | nil => rfl
  | cons c t =>
    rw [List.dropWhile_cons, if_neg]
    rw [dropWhile_head_false h]
    simp

/-- Dropping over an all-satisfying left part skips it entirely. -/
theorem dropWhile_append_all {p : Char → Bool} {a : JStr}
    (ha : ∀ c ∈ a, p c = true) (b : JStr) :
    (a ++ b).dropWhile p = b.dropWhile p := by
  induction a with
  | nil => rfl
  | cons c as ih =>
    rw [List.cons_append, List.dropWhile_cons, if_pos (ha c (by simp))]
    exact ih (fun d hd => ha d (by simp [hd]))

/-- `trimStartL` of a whitespace-headed list skips the head. -/
theorem ts_cons_ws {c : Char} (hc : isWs c = true) (l : JStr) :
    trimStartL (c :: l) = trimStartL l := by
  rw [trimStartL, List.dropWhile_cons, if_pos hc]; rfl

/-- `trimStartL` keeps a non-whitespace head. -/
theorem ts_cons_not {c : Char} (hc : isWs c = false) (l : JStr) :
    trimStartL (c :: l) = c :: l := by
  rw [trimStartL, List.dropWhile_cons, if_neg (by simp [hc])]

/-- `trimEndL` ignores an all-whitespace tail. -/
theorem te_append_ws {y : JStr} (hy : ∀ c ∈ y, isWs c = true) (x : JStr) :
    trimEndL (x ++ y) = trimEndL x := by
  unfold trimEndL
  rw [List.reverse_append, dropWhile_append_all (fun c hc => hy c (by simpa using hc))]

/-- `trimEndL` keeps a list whose last character is not whitespace. -/
theorem te_of_last {x : JStr} {c : Char} {s : JStr}
    (hx : x.reverse = c :: s) (hc : isWs c = false) : trimEndL x = x := by
  unfold trimEndL
  rw [hx, List.dropWhile_cons, if_neg (by simp [hc]), ← hx, List.reverse_reverse]

/-- `trimEndL` is a prefix of its argument. -/
theorem te_pre (l : JStr) : ∃ t, trimEndL l ++ t = l := by
  refine ⟨(l.reverse.takeWhile isWs).reverse, ?_⟩
  unfold trimEndL
  rw [← List.reverse_append, List.takeWhile_append_dropWhile, List.reverse_reverse]

/-- A trimmed nonempty list ends with a non-whitespace character. -/
theorem trimmed_last {B : JStr} (hB : jsTrim B = B) (hne : B ≠ []) :
    ∃ c s, B.reverse = c :: s ∧ isWs c = false := by
  have h1 : B.reverse = (trimStartL B).reverse.dropWhile isWs := by
    conv_lhs => rw [← hB]
    unfold jsTrim trimEndL
    rw [List.reverse_reverse]
  cases hr : (trimStartL B).reverse.dropWhile isWs with
  | nil =>
    rw [hr] at h1
    exact absurd (by simpa using congrArg List.reverse h1) hne
  | cons c s =>
    rw [hr] at h1
    exact ⟨c, s, h1, dropWhile_head_false hr⟩

/-- The head of a `jsTrim` result is not whitespace. -/
theorem jsTrim_head_not {l : JStr} {c : Char} {t : JStr}
    (h : jsTrim l = c :: t) : isWs c = false := by
  obtain ⟨u, hu⟩ := te_pre (trimStartL l)
  have hu2 : trimStartL l = c :: (t ++ u) := by
    rw [show trimEndL (trimStartL l) = jsTrim l from rfl, h] at hu
    simpa using hu.symm
  exact dropWhile_head_false hu2

/-- The last character of a `jsTrim` result is not whitespace. -/
theorem jsTrim_last_not {l : JStr} {c : Char} {t : JStr}
    (h : (jsTrim l).reverse = c :: t) : isWs c = false := by
  have h1 : (jsTrim l).reverse = (trimStartL l).reverse.dropWhile isWs := by
    unfold jsTrim trimEndL
    rw [List.reverse_reverse]
  rw [h1] at h
  exact dropWhile_head_false h

/-- A trimmed nonempty list starts with a non-whitespace character. -/
theorem trimmed_head {B : JStr} (hB : jsTrim B = B) (hne : B ≠ []) :
    ∃ c s, B = c :: s ∧ isWs c = false := by
  match B, hB, hne with
  | c :: s, hB, _ => exact ⟨c, s, rfl, jsTrim_head_not hB⟩

/-- `jsTrim` is idempotent. -/
theorem jsTrim_idem (l : JStr) : jsTrim (jsTrim l) = jsTrim l := by
  cases hne : jsTrim l with
  | nil => rfl
  | cons c s =>
    have hc : isWs c = false := jsTrim_head_not hne
    cases hrev : (c :: s).reverse with
    | nil => simp at hrev
    | cons d t =>
      have hd : isWs d = false := jsTrim_last_not (l := l) (by rw [hne, hrev])
      show trimEndL (trimStartL (c :: s)) = c :: s
      rw [ts_cons_not hc s]
      exact te_of_last hrev hd

/-- `jsTrim` skips a whitespace head. -/
theorem jsTrim_cons_ws {c : Char} (hc : isWs c = true) (l : JStr) :
    jsTrim (c :: l) = jsTrim l := by
  unfold jsTrim
  rw [ts_cons_ws hc]

/-- Whitespace-only membership transfers between a list and its
`trimStartL`. -/
theorem all_ws_ts {l : JStr} :
    (∀ c ∈ trimStartL l, isWs c = true) ↔ (∀ c ∈ l, isWs c = true) := by
  constructor
  · intro h c hc
    rw [← List.takeWhile_append_dropWhile isWs l] at hc
    rcases List.mem_append.mp hc with h1 | h2
    · exact List.mem_takeWhile_imp h1
    · exact h c h2
  · intro h c hc
    refine h c ?_
    rw [← List.takeWhile_append_dropWhile isWs l]
    exact List.mem_append.mpr (Or.inr hc)

/-- `jsTrim` is empty exactly on all-whitespace strings. -/
theorem jsTrim_nil_iff (l : JStr) :
    jsTrim l = [] ↔ ∀ c ∈ l, isWs c = true := by
  show trimEndL (trimStartL l) = [] ↔ _
  unfold trimEndL
  rw [List.reverse_eq_nil_iff, List.dropWhile_eq_nil_iff]
  constructor
  · intro h
    exact all_ws_ts.mp (fun c hc => h c (by simpa using hc))
  · intro h c hc
    exact all_ws_ts.mpr h c (by simpa using hc)

/-- Trimming a segment with a non-whitespace head whose core ends in a
trimmed nonempty body strips exactly the all-whitespace tail. -/
theorem jsTrim_seg {c : Char} {y B E : JStr} (hc : isWs c = false)
    (hB : jsTrim B = B) (hBne : B ≠ []) (hE : ∀ d ∈ E, isWs d = true) :
    jsTrim (c :: (y ++ B ++ E)) = c :: (y ++ B) := by
  obtain ⟨d, t, hdt, hd⟩ := trimmed_last hB hBne
  unfold jsTrim
  rw [ts_cons_not hc]
  have h1 : c :: (y ++ B ++ E) = (c :: (y ++ B)) ++ E := by simp
  rw [h1, te_append_ws hE]
  refine te_of_last (c := d) (s := t ++ (y.reverse ++ [c])) ?_ hd
  simp [hdt]

/-- `hhh3` fails when the first character is not `#`. -/
theorem hhh3_fst {x : Char} (hx : ¬ x = '#') (l : JStr) :
    hhh3 (x :: l) = false := by
  match l with
  | [] => rfl
  | [b] => rfl
  | b :: c :: t => simp [hhh3, hx]

/-- `hhh3` fails when the second character is not `#`. -/
theorem hhh3_snd {x y : Char} (hy : ¬ y = '#') (l : JStr) :
    hhh3 (x :: y :: l) = false := by
  match l with
  | [] => rfl
  | c :: t => simp [hhh3, hy]

/-- `hhh3` fails when the third character is not `#`. -/
theorem hhh3_thd {x y z : Char} (hz : ¬ z = '#') (l : JStr) :
    hhh3 (x :: y :: z :: l) = false := by
  simp [hhh3, hz]

/-- `hhh3` only inspects the first three characters. -/
theorem hhh3_three {x y z : Char} (l l' : JStr) :
    hhh3 (x :: y :: z :: l) = hhh3 (x :: y :: z :: l') := by
  simp [hhh3]

/-- Unfolding of `anyHHH` at a cons cell, split into its two disjuncts. -/
theorem anyHHH_false_cons {c : Char} {r : JStr} (h : anyHHH (c :: r) = false) :
    hhh3 (c :: r) = false ∧ anyHHH r = false := by
  have h1 : (hhh3 (c :: r) || anyHHH r) = false := h
  exact ⟨by simpa using (Bool.or_eq_false_iff.mp h1).1,
    by simpa using (Bool.or_eq_false_iff.mp h1).2⟩

/-- Without `###` anywhere, every tail fails `hhh3`. -/
theorem anyHHH_drop {l : JStr} (h : anyHHH l = false) (k : ℕ) :
    hhh3 (l.drop k) = false := by
  induction l generalizing k with
  | nil => rw [List.drop_nil]; rfl
  | cons c r ih =>
    cases k with
    | zero => exact (anyHHH_false_cons h).1
    | succ k' =>
      rw [List.drop_succ_cons]
      exact ih (anyHHH_false_cons h).2 k'

/-- A `###`-free list stays `###`-free when a newline-headed `###`-free
list is appended. -/
theorem anyHHH_append_nl {a b : JStr} (ha : anyHHH a = false)
    (hb : anyHHH b = false) : anyHHH (a ++ '\n' :: b) = false := by
  induction a with
  | nil =>
    show (hhh3 ('\n' :: b) || anyHHH b) = false
    rw [hhh3_fst (by decide) b, hb]
    rfl
  | cons c r ih =>
    obtain ⟨h1, h2⟩ := anyHHH_false_cons ha
    show (hhh3 (c :: (r ++ '\n' :: b)) || anyHHH (r ++ '\n' :: b)) = false
    rw [ih h2, Bool.or_false]
    match r, h1 with
    | [], h1 => exact hhh3_snd (by decide) b
    | [d], h1 => exact hhh3_thd (by decide) b
    | d :: e :: r', h1 =>
      simp only [List.cons_append]
      rw [hhh3_three (r' ++ '\n' :: b) r']
      exact h1

/-- Shape characterization of the heading marker. -/
theorem headMarker_iff {l : JStr} : isHeadMarker l = true ↔
    ∃ w t, l = '#' :: '#' :: '#' :: w :: t ∧ isWs w = true := by
  match l with
  | [] => simp [isHeadMarker]
  | [a] => simp [isHeadMarker]
  | [a, b] => simp [isHeadMarker]
  | [a, b, c] => simp [isHeadMarker]
  | a :: b :: c :: d :: t =>
    simp only [isHeadMarker, Bool.and_eq_true, decide_eq_true_eq]
    constructor
    · rintro ⟨⟨⟨rfl, rfl⟩, rfl⟩, hw⟩
      exact ⟨d, t, rfl, hw⟩
    · rintro ⟨w, u, hu, hw⟩
      injection hu with e1 hu1
      injection hu1 with e2 hu2
      injection hu2 with e3 hu3
      injection hu3 with e4 _
      subst e1; subst e2; subst e3; subst e4
      exact ⟨⟨⟨rfl, rfl⟩, rfl⟩, hw⟩

/-- A heading marker starts with `###`. -/
theorem headMarker_hhh3 {l : JStr} (h : isHeadMarker l = true) :
    hhh3 l = true := by
  obtain ⟨w, t, rfl, hw⟩ := headMarker_iff.mp h
  simp [hhh3]

/-- A heading marker has at least four characters. -/
theorem headMarker_len {l : JStr} (h : isHeadMarker l = true) : 4 ≤ l.length := by
  obtain ⟨w, t, rfl, hw⟩ := headMarker_iff.mp h
  simp only [List.length_cons]
  omega

/-- Lists shorter than four characters are never heading markers. -/
theorem headMarker_short {l : JStr} (h : l.length < 4) :
    isHeadMarker l = false := by
  match l with
  | [] => rfl
  | [a] => rfl
  | [a, b] => rfl
  | [a, b, c] => rfl
  | a :: b :: c :: d :: t =>
    exfalso
    simp only [List.length_cons] at h
    omega

/-- The heading-marker test only inspects the first four characters. -/
theorem headMarker_append_4 {x : JStr} (h : 4 ≤ x.length) (y : JStr) :
    isHeadMarker (x ++ y) = isHeadMarker x := by
  match x with
  | a :: b :: c :: d :: t => simp [isHeadMarker, List.cons_append]
  | [] => simp at h
  | [a] => simp at h
  | [a, b] => simp at h
  | [a, b, c] => simp at h

/-- Computing the heading-marker test on an exposed four-character head. -/
theorem headMarker_cons4 (w : Char) (t : JStr) :
    isHeadMarker ('#' :: '#' :: '#' :: w :: t) = isWs w := by
  simp [isHeadMarker]

/-- The marker test fails when the first character is not `#`. -/
theorem headMarker_fst {x : Char} (hx : ¬ x = '#') (l : JStr) :
    isHeadMarker (x :: l) = false := by
  match l with
  | [] => rfl
  | [a] => rfl
  | [a, b] => rfl
  | a :: b :: c :: t => simp [isHeadMarker, hx]

/-- The marker test fails when the second character is not `#`. -/
theorem headMarker_snd {x y : Char} (hy : ¬ y = '#') (l : JStr) :
    isHeadMarker (x :: y :: l) = false := by
  match l with
  | [] => rfl
  | [a] => rfl
  | a :: b :: t => simp [isHeadMarker, hy]

/-- The marker test fails when the third character is not `#`. -/
theorem headMarker_thd {x y z : Char} (hz : ¬ z = '#') (l : JStr) :
    isHeadMarker (x :: y :: z :: l) = false := by
  match l with
  | [] => rfl
  | a :: t => simp [isHeadMarker, hz]

/-- The marker test fails when the fourth character is not whitespace. -/
theorem headMarker_ws4 {x y z w : Char} (hw : isWs w = false) (l : JStr) :
    isHeadMarker (x :: y :: z :: w :: l) = false := by
  simp [isHeadMarker, hw]

/-- A whitespace character is not `#`. -/
theorem ws_ne_hash {w : Char} (hw : isWs w = true) : ¬ w = '#' := by
  intro h
  subst h
  exact absurd hw (by decide)

/-- A nonempty list has `isEmpty` false. -/
theorem neListIsEmpty {α : Type} {l : List α} (h : l ≠ []) : l.isEmpty = false := by
  cases l with
  | nil => exact absurd rfl h
  | cons a t => rfl

/-- Without `###` in the tail, no heading marker starts at any position
past the head. -/
theorem goodTail_of_anyHHH {s0 : Char} {srest : JStr}
    (h : anyHHH srest = false) :
    ∀ j, 1 ≤ j → isHeadMarker ((s0 :: srest).drop j) = false := by
  intro j hj
  cases hm : isHeadMarker ((s0 :: srest).drop j) with
  | false => rfl
  | true =>
    exfalso
    have h3 : hhh3 ((s0 :: srest).drop j) = true := headMarker_hhh3 hm
    obtain ⟨j', rfl⟩ : ∃ j', j = j' + 1 := ⟨j - 1, by omega⟩
    rw [List.drop_succ_cons, anyHHH_drop h j'] at h3
    cases h3

/-- Reassociation of the scan state: pushing a character from the input
onto the accumulator leaves the represented string unchanged. -/
theorem rev_cons_append (c : Char) (acc rest : JStr) :
    (c :: acc).reverse ++ rest = acc.reverse ++ (c :: rest) := by
  simp

/-- A reassembled segment has no heading marker at any positive offset. -/
theorem seg_goodTail {T B E : JStr} (hT : anyHHH T = false)
    (hB : anyHHH B = false) (hE : E = [] ∨ E = nnS) :
    ∀ j, 1 ≤ j →
      isHeadMarker (('#' :: '#' :: '#' :: ' ' :: (T ++ (nnS ++ (B ++ E)))).drop j)
        = false := by
  have hBE : anyHHH (B ++ E) = false := by
    rcases hE with rfl | rfl
    · simpa using hB
    · exact anyHHH_append_nl hB rfl
  have hTail : anyHHH (T ++ (nnS ++ (B ++ E))) = false := by
    show anyHHH (T ++ '\n' :: ('\n' :: (B ++ E))) = false
    apply anyHHH_append_nl hT
    show (hhh3 ('\n' :: (B ++ E)) || anyHHH (B ++ E)) = false
    rw [hhh3_fst (by decide), hBE]
    rfl
  apply goodTail_of_anyHHH
  show (hhh3 ('#' :: '#' :: ' ' :: (T ++ (nnS ++ (B ++ E)))) ||
    (hhh3 ('#' :: ' ' :: (T ++ (nnS ++ (B ++ E)))) ||
      (hhh3 (' ' :: (T ++ (nnS ++ (B ++ E)))) ||
        anyHHH (T ++ (nnS ++ (B ++ E)))))) = false
  rw [hhh3_thd (by decide), hhh3_snd (by decide), hhh3_fst (by decide), hTail]
  rfl

/-- Marker-freedom inside an appended string restricts to its left part. -/
theorem restrict_marker {a X : JStr}
    (P : ∀ j, 1 ≤ j → j < a.length → isHeadMarker ((a ++ X).drop j) = false) :
    ∀ j, 1 ≤ j → isHeadMarker (a.drop j) = false := by
  intro j hj
  by_cases hja : j < a.length
  · have h1 := P j hj hja
    rw [List.drop_append_of_le_length (le_of_lt hja)] at h1
    by_cases h4 : 4 ≤ (a.drop j).length
    · rw [headMarker_append_4 h4] at h1
      exact h1
    · exact headMarker_short (by omega)
  · rw [List.drop_eq_nil_of_le (by omega)]
    rfl

/-- No heading marker can start strictly inside a marker-free string and
spill over into an adjacent marker-headed string. -/
theorem cross_safe {a b : JStr}
    (hga : ∀ j, 1 ≤ j → isHeadMarker (a.drop j) = false)
    (hb : isHeadMarker b = true) :
    ∀ j, 1 ≤ j → j < a.length → isHeadMarker ((a ++ b).drop j) = false := by
  intro j hj hja
  rw [List.drop_append_of_le_length (le_of_lt hja)]
  obtain ⟨w, t, rfl, hw⟩ := headMarker_iff.mp hb
  by_cases h4 : 4 ≤ (a.drop j).length
  · rw [headMarker_append_4 h4]
    exact hga j hj
  · have hlen1 : 1 ≤ (a.drop j).length := by
      rw [List.length_drop]
      omega
    rcases hd : a.drop j with _ | ⟨x, dt⟩
    · rw [hd] at hlen1
      simp at hlen1
    · rcases dt with _ | ⟨y, dt2⟩
      · simp only [List.cons_append, List.nil_append]
        exact headMarker_ws4 (by decide) _
      · rcases dt2 with _ | ⟨z, dt3⟩
        · simp only [List.cons_append, List.nil_append]
          exact headMarker_ws4 (by decide) _
        · rcases dt3 with _ | ⟨u, dt4⟩
          · simp only [List.cons_append, List.nil_append]
            exact headMarker_ws4 (by decide) _
          · exfalso
            apply h4
            rw [hd]
            simp only [List.length_cons]
            omega

/-- The first section produced by the scanner extends the pending
accumulator. -/
theorem splitAux_shape (s : JStr) : ∀ acc : JStr,
    ∃ u t, splitAux s acc = (acc.reverse ++ u) :: t := by
  induction s with
  | nil =>
    intro acc
    exact ⟨[], [], by simp [splitAux]⟩
  | cons c rest ih =>
    intro acc
    by_cases hcond : (isHeadMarker (c :: rest) && !acc.isEmpty) = true
    · refine ⟨[], splitAux rest [c], ?_⟩
      simp only [splitAux]
      rw [if_pos hcond]
      simp
    · obtain ⟨u, t, hu⟩ := ih (c :: acc)
      refine ⟨c :: u, t, ?_⟩
      simp only [splitAux]
      rw [if_neg hcond, hu, rev_cons_append]

/-- One scanner step from the empty accumulator always consumes. -/
theorem splitSections_step (c : Char) (r : JStr) :
    splitSections (c :: r) = splitAux r [c] := by
  rw [splitSections]
  simp only [splitAux]
  rw [if_neg]
  simp

/-- When no further marker occurs, the scanner yields a single segment. -/
theorem splitAux_last : ∀ (n : ℕ) (s acc : JStr), s.length ≤ n → acc ≠ [] →
    (∀ j, 1 ≤ j → isHeadMarker ((acc.reverse ++ s).drop j) = false) →
    splitAux s acc = [acc.reverse ++ s] := by
  intro n
  induction n with
  | zero =>
    intro s acc hlen hacc P
    have hs : s = [] := List.length_eq_zero.mp (Nat.le_zero.mp hlen)
    subst hs
    simp [splitAux]
  | succ n' ih =>
    intro s acc hlen hacc P
    cases s with
    | nil => simp [splitAux]
    | cons c rest =>
      have hm : isHeadMarker (c :: rest) = false := by
        have h1 := P acc.length (List.length_pos.mpr hacc)
        rw [show acc.length = acc.reverse.length from (List.length_reverse acc).symm,
          List.drop_left] at h1
        exact h1
      simp only [splitAux]
      rw [hm, Bool.false_and, if_neg (by simp)]
      rw [ih rest (c :: acc) (by simp only [List.length_cons] at hlen; omega)
        (by simp) (by intro j hj; rw [rev_cons_append]; exact P j hj)]
      rw [rev_cons_append]

/-- Reaching a marker-headed remainder with a pending segment emits the
segment and restarts the scan there. -/
theorem splitAux_pass_nil {s₂ acc : JStr} (hacc : acc ≠ [])
    (hs₂ : isHeadMarker s₂ = true) :
    splitAux s₂ acc = acc.reverse :: splitSections s₂ := by
  obtain ⟨w, t, rfl, hw⟩ := headMarker_iff.mp hs₂
  rw [splitSections_step]
  simp only [splitAux]
  rw [if_pos]
  rw [headMarker_cons4, hw, neListIsEmpty hacc]
  rfl

/-- Scanning a marker-free stretch followed by a marker-headed remainder
emits exactly the stretch and continues independently. -/
theorem splitAux_pass : ∀ (n : ℕ) (s₁ s₂ acc : JStr), s₁.length ≤ n →
    acc ≠ [] → isHeadMarker s₂ = true →
    (∀ j, 1 ≤ j → j < acc.length + s₁.length →
      isHeadMarker ((acc.reverse ++ (s₁ ++ s₂)).drop j) = false) →
    splitAux (s₁ ++ s₂) acc = (acc.reverse ++ s₁) :: splitSections s₂ := by
  intro n
  induction n with
  | zero =>
    intro s₁ s₂ acc hlen hacc hs₂ P
    have hs : s₁ = [] := List.length_eq_zero.mp (Nat.le_zero.mp hlen)
    subst hs
    rw [List.nil_append, List.append_nil]
    exact splitAux_pass_nil hacc hs₂
  | succ n' ih =>
    intro s₁ s₂ acc hlen hacc hs₂ P
    cases s₁ with
    | nil =>
      rw [List.nil_append, List.append_nil]
      exact splitAux_pass_nil hacc hs₂
    | cons c rest =>
      have hm : isHeadMarker (c :: (rest ++ s₂)) = false := by
        have h1 := P acc.length (List.length_pos.mpr hacc)
          (by simp only [List.length_cons]; omega)
        rw [show acc.length = acc.reverse.length from (List.length_reverse acc).symm,
          List.drop_left] at h1
        simpa using h1
      rw [List.cons_append]
      simp only [splitAux]
      rw [hm, Bool.false_and, if_neg (by simp)]
      rw [ih rest s₂ (c :: acc) (by simp only [List.length_cons] at hlen; omega)
        (by simp) hs₂
        (by
          intro j hj hjlt
          rw [rev_cons_append, ← List.cons_append]
          exact P j hj (by simp only [List.length_cons] at hjlt ⊢; omega))]
      rw [rev_cons_append]

/-- Full characterization of the scanner: the segments concatenate back to
the scanned text, no segment has a marker at a positive offset, every
segment after the first is marker-headed, and no segment is empty. -/
theorem splitAux_rec : ∀ (n : ℕ) (s acc : JStr), s.length ≤ n → acc ≠ [] →
    (∀ j, 1 ≤ j → j < acc.length → isHeadMarker ((acc.reverse ++ s).drop j) = false) →
    ((splitAux s acc).flatten = acc.reverse ++ s)
    ∧ (∀ sec ∈ splitAux s acc, ∀ j, 1 ≤ j → isHeadMarker (sec.drop j) = false)
    ∧ (∀ sec ∈ (splitAux s acc).tail, isHeadMarker sec = true)
    ∧ (∀ sec ∈ splitAux s acc, sec ≠ []) := by
  intro n
  induction n with
  | zero =>
    intro s acc hlen hacc P
    have hs : s = [] := List.length_eq_zero.mp (Nat.le_zero.mp hlen)
    subst hs
    refine ⟨by simp [splitAux], ?_, ?_, ?_⟩
    · intro sec hsec j hj
      rw [show sec = acc.reverse from by simpa [splitAux] using hsec]
      exact restrict_marker (X := []) (by simpa using P) j hj
    · intro sec hsec
      simp [splitAux] at hsec
    · intro sec hsec
      rw [show sec = acc.reverse from by simpa [splitAux] using hsec]
      simpa [List.reverse_eq_nil_iff] using hacc
  | succ n' ih =>
    intro s acc hlen hacc P
    cases s with
    | nil =>
      refine ⟨by simp [splitAux], ?_, ?_, ?_⟩
      · intro sec hsec j hj
        rw [show sec = acc.reverse from by simpa [splitAux] using hsec]
        exact restrict_marker (X := []) (by simpa using P) j hj
      · intro sec hsec
        simp [splitAux] at hsec
      · intro sec hsec
        rw [show sec = acc.reverse from by simpa [splitAux] using hsec]
        simpa [List.reverse_eq_nil_iff] using hacc
    | cons c rest =>
      cases hm : isHeadMarker (c :: rest) with
      | false =>
        have heq : splitAux (c :: rest) acc = splitAux rest (c :: acc) := by
          simp only [splitAux]
          rw [hm, Bool.false_and, if_neg (by simp)]
        obtain ⟨R1, R2, R3, R4⟩ := ih rest (c :: acc)
          (by simp only [List.length_cons] at hlen; omega) (by simp)
          (by
            intro j hj hjlt
            rw [rev_cons_append]
            simp only [List.length_cons] at hjlt
            by_cases hja : j < acc.length
            · exact P j hj hja
            · have hje : j = acc.length := by omega
              subst hje
              rw [show acc.length = acc.reverse.length from
                (List.length_reverse acc).symm, List.drop_left]
              exact hm)
        rw [rev_cons_append] at R1
        rw [show splitAux (c :: rest) acc = splitAux rest (c :: acc) from heq]
        exact ⟨R1, R2, R3, R4⟩
      | true =>
        obtain ⟨w, z, hcz, hw⟩ := headMarker_iff.mp hm
        injection hcz with hc hrest
        subst hc
        subst hrest
        have heq : splitAux ('#' :: '#' :: '#' :: w :: z) acc =
            acc.reverse :: splitAux z [w, '#', '#', '#'] := by
          simp only [splitAux]
          rw [if_pos (by rw [headMarker_cons4, hw, neListIsEmpty hacc]; rfl),
            if_neg (by rw [headMarker_thd (ws_ne_hash hw), Bool.false_and]; simp),
            if_neg (by rw [headMarker_snd (ws_ne_hash hw), Bool.false_and]; simp),
            if_neg (by rw [headMarker_fst (ws_ne_hash hw), Bool.false_and]; simp)]
        obtain ⟨R1, R2, R3, R4⟩ := ih z [w, '#', '#', '#']
          (by simp only [List.length_cons] at hlen; omega) (by simp)
          (by
            intro j hj hjlt
            simp only [List.length_cons, List.length_nil] at hjlt
            match j, hj, hjlt with
            | 1, _, _ => exact headMarker_thd (ws_ne_hash hw) z
            | 2, _, _ => exact headMarker_snd (ws_ne_hash hw) z
            | 3, _, _ => exact headMarker_fst (ws_ne_hash hw) z)
        refine ⟨?_, ?_, ?_, ?_⟩
        · rw [heq, List.flatten_cons, R1]
          simp
        · intro sec hsec j hj
          rw [heq] at hsec
          rcases List.mem_cons.mp hsec with rfl | hsec2
          · exact restrict_marker (X := '#' :: '#' :: '#' :: w :: z)
              (fun j' hj' hjlt => P j' hj' (by simpa using hjlt)) j hj
          · exact R2 sec hsec2 j hj
        · intro sec hsec
          rw [heq] at hsec
          simp only [List.tail_cons] at hsec
          obtain ⟨u, t', hshape⟩ := splitAux_shape z [w, '#', '#', '#']
          rw [hshape] at hsec
          rcases List.mem_cons.mp hsec with rfl | hsec2
          · show isHeadMarker (['#', '#', '#', w] ++ u) = true
            simp only [List.cons_append, List.nil_append]
            rw [headMarker_cons4]
            exact hw
          · exact R3 _ (by rw [hshape]; simpa using hsec2)
        · intro sec hsec
          rw [heq] at hsec
          rcases List.mem_cons.mp hsec with rfl | hsec2
          · simpa [List.reverse_eq_nil_iff] using hacc
          · exact R4 sec hsec2

/-- Characterization of `splitSections`: lossless, splitting at every
marker occurrence at a positive offset and only there. -/
theorem splitSections_spec (s : JStr) :
    ((splitSections s).flatten = s)
    ∧ (∀ sec ∈ splitSections s, ∀ j, 1 ≤ j → isHeadMarker (sec.drop j) = false)
    ∧ (∀ sec ∈ (splitSections s).tail, isHeadMarker sec = true) := by
  cases s with
  | nil =>
    refine ⟨rfl, ?_, ?_⟩
    · intro sec hsec j hj
      rw [show sec = ([] : JStr) from by simpa [splitSections, splitAux] using hsec]
      rw [List.drop_nil]
      rfl
    · intro sec hsec
      simp [splitSections, splitAux] at hsec
  | cons c r =>
    rw [splitSections_step]
    obtain ⟨R1, R2, R3, _⟩ := splitAux_rec r.length r [c] le_rfl (by simp)
      (by intro j hj hjlt; simp only [List.length_cons, List.length_nil] at hjlt; omega)
    exact ⟨by simpa using R1, R2, R3⟩

/-- Splitting a concatenation of marker-headed internally-marker-free
segments recovers exactly those segments. -/
theorem splitSections_segs : ∀ (segs : List JStr), segs ≠ [] →
    (∀ seg ∈ segs, isHeadMarker seg = true) →
    (∀ seg ∈ segs, ∀ j, 1 ≤ j → isHeadMarker (seg.drop j) = false) →
    splitSections segs.flatten = segs := by
  intro segs
  induction segs with
  | nil => intro h; exact absurd rfl h
  | cons seg rest ih =>
    intro _ hmk hgood
    have hseg : isHeadMarker seg = true := hmk seg (by simp)
    obtain ⟨w, t, hseg_eq, hw⟩ := headMarker_iff.mp hseg
    cases rest with
    | nil =>
      rw [List.flatten_cons, List.flatten_nil, List.append_nil]
      subst hseg_eq
      rw [splitSections_step]
      rw [splitAux_last ('#' :: '#' :: w :: t).length _ _ le_rfl (by simp)
        (by
          intro j hj
          have h1 := hgood _ (List.mem_cons_self _ _) j hj
          simpa using h1)]
      simp
    | cons seg2 rest2 =>
      rw [List.flatten_cons]
      subst hseg_eq
      have hF : isHeadMarker (seg2 :: rest2).flatten = true := by
        rw [List.flatten_cons,
          headMarker_append_4 (headMarker_len (hmk seg2 (by simp))) _]
        exact hmk seg2 (by simp)
      rw [show ('#' :: '#' :: '#' :: w :: t) ++ (seg2 :: rest2).flatten =
        '#' :: (('#' :: '#' :: w :: t) ++ (seg2 :: rest2).flatten) from by simp]
      rw [splitSections_step]
      rw [splitAux_pass ('#' :: '#' :: w :: t).length _ _ _ le_rfl (by simp) hF
        (by
          intro j hj hjlt
          simp only [List.length_cons, List.length_nil] at hjlt
          have hcross := cross_safe (a := '#' :: '#' :: '#' :: w :: t)
            (b := (seg2 :: rest2).flatten)
            (fun j' hj' => hgood _ (List.mem_cons_self _ _) j' hj') hF j hj
            (by simp only [List.length_cons]; omega)
          simpa using hcross)]
      rw [ih (by simp) (fun x hx => hmk x (List.mem_cons_of_mem _ hx))
        (fun x hx => hgood x (List.mem_cons_of_mem _ hx))]
      simp

/-- `splitNl` never returns an empty list of parts. -/
theorem splitNl_ne_nil (l : JStr) : splitNl l ≠ [] := by
  cases l with
  | nil => simp [splitNl]
  | cons c r =>
    simp only [splitNl]
    by_cases hc : c = '\n'
    · rw [if_pos hc]
      simp
    · rw [if_neg hc]
      cases h : splitNl r <;> simp

/-- Joining the newline-split parts restores the original string. -/
theorem joinNl_splitNl (l : JStr) : joinNl (splitNl l) = l := by
  induction l with
  | nil => rfl
  | cons c r ih =>
    simp only [splitNl]
    by_cases hc : c = '\n'
    · rw [if_pos hc]
      subst hc
      cases h : splitNl r with
      | nil => exact absurd h (splitNl_ne_nil r)
      | cons x t =>
        show joinNl ([] :: x :: t) = '\n' :: r
        rw [joinNl, ← h, ih]
        rfl
    · rw [if_neg hc]
      cases h : splitNl r with
      | nil => exact absurd h (splitNl_ne_nil r)
      | cons x t =>
        cases t with
        | nil =>
          show joinNl [c :: x] = c :: r
          rw [joinNl]
          have hx : x = r := by rw [← ih, h]; rfl
          rw [hx]
        | cons y t2 =>
          show joinNl ((c :: x) :: y :: t2) = c :: r
          rw [joinNl]
          have hx : x ++ '\n' :: joinNl (y :: t2) = r := by
            rw [← ih, h]
            rfl
          rw [List.cons_append, hx]

/-- Splitting at the first newline of a newline-free stretch. -/
theorem splitNl_append_nl {a : JStr} (ha : '\n' ∉ a) (b : JStr) :
    splitNl (a ++ '\n' :: b) = a :: splitNl b := by
  induction a with
  | nil =>
    show splitNl ('\n' :: b) = [] :: splitNl b
    simp [splitNl]
  | cons c r ih =>
    have hc : ¬ c = '\n' := fun h => ha (by simp [h])
    have hr : '\n' ∉ r := fun h => ha (by simp [h])
    show splitNl (c :: (r ++ '\n' :: b)) = (c :: r) :: splitNl b
    simp only [splitNl, if_neg hc]
    rw [ih hr]

/-- Unfoldings of the reassembler building blocks as character lists. -/
theorem nnS_eq : nnS = ['\n', '\n'] := rfl

/-- Unfolding of the heading prefix as a character list. -/
theorem hmS_eq : hmS = ['#', '#', '#', ' '] := rfl

/-- Trimming a reassembled segment removes exactly the trailing blank-line
separator. -/
theorem seg_trim {T B E : JStr} (hBt : jsTrim B = B) (hBne : B ≠ [])
    (hE : ∀ d ∈ E, isWs d = true) :
    jsTrim (hmS ++ T ++ nnS ++ B ++ E) = hmS ++ T ++ nnS ++ B := by
  have h1 : hmS ++ T ++ nnS ++ B ++ E =
      '#' :: (('#' :: '#' :: ' ' :: (T ++ nnS)) ++ B ++ E) := by
    simp [hmS_eq, List.append_assoc]
  have h2 : hmS ++ T ++ nnS ++ B =
      '#' :: (('#' :: '#' :: ' ' :: (T ++ nnS)) ++ B) := by
    simp [hmS_eq, List.append_assoc]
  rw [h1, h2, jsTrim_seg (by decide) hBt hBne hE]

/-- The first line and remaining lines of a trimmed reassembled segment. -/
theorem seg_lines {T B : JStr} (hTnl : '\n' ∉ T) :
    splitNl (hmS ++ T ++ nnS ++ B) = (hmS ++ T) :: [] :: splitNl B := by
  have h1 : hmS ++ T ++ nnS ++ B = (hmS ++ T) ++ '\n' :: ('\n' :: B) := by
    simp [nnS_eq, List.append_assoc]
  have hnl : '\n' ∉ hmS ++ T := by
    intro hmem
    rcases List.mem_append.mp hmem with h | h
    · rw [hmS_eq] at h
      simp at h
    · exact hTnl h
  rw [h1, splitNl_append_nl hnl]
  congr 1

/-- Recovering the title from the heading line of a segment. -/
theorem seg_title {T : JStr} (hTt : jsTrim T = T) :
    jsTrim (replaceFirstHHH (hmS ++ T)) = T := by
  have h1 : replaceFirstHHH (hmS ++ T) = ' ' :: T := by
    rw [hmS_eq]
    rfl
  rw [h1, jsTrim_cons_ws (by decide), hTt]

/-- Recovering the body from the remaining lines of a segment. -/
theorem seg_body {B : JStr} (hBt : jsTrim B = B) :
    jsTrim (joinNl ([] :: splitNl B)) = B := by
  cases h : splitNl B with
  | nil => exact absurd h (splitNl_ne_nil B)
  | cons x t =>
    show jsTrim (joinNl ([] :: x :: t)) = B
    rw [joinNl, ← h, List.nil_append, joinNl_splitNl, jsTrim_cons_ws (by decide), hBt]

/-- The cut segments concatenate to the reassembled raw text. -/
theorem segsOf_flat (C : List GeneratedContentChunk) :
    (segsOf C).flatten = updateFullContentFromChunks C := by
  induction C with
  | nil => rfl
  | cons c rest ih =>
    cases rest with
    | nil =>
      show (segsOf [c]).flatten = _
      simp [segsOf, partOf, updateFullContentFromChunks, joinSep, hmS, nnS]
    | cons c2 rest2 =>
      show ((partOf c ++ nnS) :: segsOf (c2 :: rest2)).flatten = _
      rw [List.flatten_cons, ih]
      simp [updateFullContentFromChunks, joinSep, partOf, hmS, nnS,
        List.append_assoc]

/-- Every cut segment is marker-headed. -/
theorem segsOf_marker {C : List GeneratedContentChunk} :
    ∀ seg ∈ segsOf C, isHeadMarker seg = true := by
  induction C with
  | nil =>
    intro seg h
    simp [segsOf] at h
  | cons c rest ih =>
    intro seg hseg
    cases rest with
    | nil =>
      rcases List.mem_singleton.mp hseg with rfl
      show isHeadMarker
        ('#' :: '#' :: '#' :: ' ' :: ((c.title ++ nnS) ++ c.content)) = true
      rw [headMarker_cons4]
      decide
    | cons c2 rest2 =>
      rcases List.mem_cons.mp hseg with rfl | h2
      · show isHeadMarker
          ('#' :: '#' :: '#' :: ' ' :: (((c.title ++ nnS) ++ c.content) ++ nnS)) = true
        rw [headMarker_cons4]
        decide
      · exact ih seg h2

/-- No cut segment has a heading marker at a positive offset. -/
theorem segsOf_good {C : List GeneratedContentChunk}
    (hwf : ∀ c ∈ C, wfChunk c) :
    ∀ seg ∈ segsOf C, ∀ j, 1 ≤ j → isHeadMarker (seg.drop j) = false := by
  induction C with
  | nil =>
    intro seg h
    simp [segsOf] at h
  | cons c rest ih =>
    intro seg hseg j hj
    obtain ⟨h1, h2, h3, h4, h5, h6, h7⟩ := hwf c (by simp)
    cases rest with
    | nil =>
      rcases List.mem_singleton.mp hseg with rfl
      have hg := seg_goodTail (T := c.title) (B := c.content) h4 h7 (Or.inl rfl)
      have hassoc : partOf c =
          '#' :: '#' :: '#' :: ' ' :: (c.title ++ (nnS ++ (c.content ++ []))) := by
        simp [partOf, hmS_eq, List.append_assoc]
      rw [hassoc]
      exact hg j hj
    | cons c2 rest2 =>
      rcases List.mem_cons.mp hseg with rfl | hmem
      · have hg := seg_goodTail (T := c.title) (B := c.content) h4 h7 (Or.inr rfl)
        have hassoc : partOf c ++ nnS =
            '#' :: '#' :: '#' :: ' ' :: (c.title ++ (nnS ++ (c.content ++ nnS))) := by
          simp [partOf, hmS_eq, List.append_assoc]
        rw [hassoc]
        exact hg j hj
      · exact ih (fun x hx => hwf x (List.mem_cons_of_mem _ hx)) seg hmem j hj

/-- A marker-headed segment does not trim to the empty string. -/
theorem marker_trim_ne {seg : JStr} (h : isHeadMarker seg = true) :
    (jsTrim seg).isEmpty = false := by
  obtain ⟨w, t, rfl, hw⟩ := headMarker_iff.mp h
  apply neListIsEmpty
  intro hnil
  have h2 := (jsTrim_nil_iff _).mp hnil '#' (by simp)
  exact absurd h2 (by decide)

/-- The number of cut segments equals the number of chunks. -/
theorem segsOf_len (C : List GeneratedContentChunk) :
    (segsOf C).length = C.length := by
  induction C with
  | nil => rfl
  | cons c rest ih =>
    cases rest with
    | nil => rfl
    | cons c2 rest2 =>
      show ((partOf c ++ nnS) :: segsOf (c2 :: rest2)).length = _
      simp only [List.length_cons, ih]

/-- Chunking one reassembled segment recovers its title and body. -/
theorem seg_chunk {T B E : JStr}
    (hTt : jsTrim T = T) (hTnl : '\n' ∉ T)
    (hBt : jsTrim B = B) (hBne : B ≠ [])
    (hE : ∀ d ∈ E, isWs d = true) :
    jsTrim (replaceFirstHHH
        ((splitNl (jsTrim (hmS ++ T ++ nnS ++ B ++ E))).headD [])) = T
    ∧ jsTrim (joinNl (splitNl (jsTrim (hmS ++ T ++ nnS ++ B ++ E))).tail) = B := by
  rw [seg_trim hBt hBne hE, seg_lines hTnl]
  constructor
  · show jsTrim (replaceFirstHHH (hmS ++ T)) = T
    exact seg_title hTt
  · show jsTrim (joinNl ([] :: splitNl B)) = B
    exact seg_body hBt

/-- Chunk extraction mapped over the cut segments recovers every title and
body in order. -/
theorem segs_map {C : List GeneratedContentChunk} (hwf : ∀ c ∈ C, wfChunk c) :
    (segsOf C).map (fun sec =>
      (jsTrim (replaceFirstHHH ((splitNl (jsTrim sec)).headD [])),
       jsTrim (joinNl (splitNl (jsTrim sec)).tail))) = C.map tcOf := by
  induction C with
  | nil => rfl
  | cons c rest ih =>
    obtain ⟨h1, h2, h3, h4, h5, h6, h7⟩ := hwf c (by simp)
    cases rest with
    | nil =>
      obtain ⟨ht, hc⟩ := seg_chunk (E := []) h2 h3 h6 h5 (by simp)
      have hb : partOf c = hmS ++ c.title ++ nnS ++ c.content ++ [] := by
        simp [partOf]
      show [(jsTrim (replaceFirstHHH ((splitNl (jsTrim (partOf c))).headD [])),
        jsTrim (joinNl (splitNl (jsTrim (partOf c))).tail))] = [(c.title, c.content)]
      rw [hb, ht, hc]
    | cons c2 rest2 =>
      obtain ⟨ht, hc⟩ := seg_chunk (E := nnS) h2 h3 h6 h5 (by decide)
      have hb : partOf c ++ nnS = hmS ++ c.title ++ nnS ++ c.content ++ nnS := by
        simp [partOf]
      show (jsTrim (replaceFirstHHH ((splitNl (jsTrim (partOf c ++ nnS))).headD [])),
          jsTrim (joinNl (splitNl (jsTrim (partOf c ++ nnS))).tail)) ::
          (segsOf (c2 :: rest2)).map _ = (c.title, c.content) :: (c2 :: rest2).map tcOf
      rw [hb, ht, hc, ih (fun x hx => hwf x (List.mem_cons_of_mem _ hx))]

/-- Reduction of `parseContent` to its per-section branch. -/
theorem parseContent_main {raw : JStr} (hne : raw.isEmpty = false)
    (hlen2 : ¬ ((splitSections raw).filter (fun s => !(jsTrim s).isEmpty)).length ≤ 1) :
    parseContent raw =
      ((splitSections raw).filter (fun s => !(jsTrim s).isEmpty)).enum.map
        (fun p =>
          { id := jstr ("chunk-" ++ toString p.1),
            title := jsTrim (replaceFirstHHH ((splitNl (jsTrim p.2)).headD [])),
            content := jsTrim (joinNl (splitNl (jsTrim p.2)).tail) }) := by
  simp only [parseContent]
  rw [if_neg (by rw [hne]; simp), if_neg (by intro hcon; exact hlen2 hcon.1)]

/-- Reduction of `parseContent` to its single-segment fallback branch. -/
theorem parseContent_fallback {raw : JStr} (hne : raw.isEmpty = false)
    (ht : ¬ (jsTrim raw).isEmpty = true)
    (hlen1 : ((splitSections raw).filter (fun s => !(jsTrim s).isEmpty)).length ≤ 1) :
    parseContent raw =
      [{ id := jstr "chunk-0", title := jstr "Generated Content",
         content := jsTrim raw }] := by
  simp only [parseContent]
  rw [if_neg (by rw [hne]; simp), if_pos ⟨hlen1, ht⟩]

/-- `parseContent` of a blank (empty or whitespace-only) string is empty. -/
theorem parseContent_ws {raw : JStr} (ht : jsTrim raw = []) :
    parseContent raw = [] := by
  by_cases hraw : raw.isEmpty = true
  · simp only [parseContent]
    rw [if_pos hraw]
  · have hsecs : (splitSections raw).filter (fun s => !(jsTrim s).isEmpty) = [] := by
      rw [List.filter_eq_nil_iff]
      intro sec hsec
      have hws : jsTrim sec = [] := by
        rw [jsTrim_nil_iff]
        intro c hc
        refine (jsTrim_nil_iff raw).mp ht c ?_
        rw [← (splitSections_spec raw).1]
        exact List.mem_flatten.mpr ⟨sec, hsec, hc⟩
      rw [hws]
      simp
    simp only [parseContent]
    rw [if_neg hraw, if_neg (by intro hcon; exact hcon.2 (by rw [ht]; rfl)), hsecs]
    rfl

/-- Round-trip core: chunking the reassembly of at least two well-formed
chunks recovers every title and body in order. -/
theorem roundTrip_core {C : List GeneratedContentChunk} (hlen : 2 ≤ C.length)
    (hwf : ∀ c ∈ C, wfChunk c) :
    (parseContent (updateFullContentFromChunks C)).map tcOf = C.map tcOf := by
  have hne : segsOf C ≠ [] := by
    cases C with
    | nil => simp at hlen
    | cons c rest =>
      cases rest with
      | nil => simp at hlen
      | cons c2 r2 =>
        show (partOf c ++ nnS) :: segsOf (c2 :: r2) ≠ []
        simp
  have hsecs : splitSections (updateFullContentFromChunks C) = segsOf C := by
    rw [← segsOf_flat]
    exact splitSections_segs _ hne segsOf_marker (segsOf_good hwf)
  have hraw : (updateFullContentFromChunks C).isEmpty = false := by
    rw [← segsOf_flat]
    cases hs : segsOf C with
    | nil => exact absurd hs hne
    | cons seg t =>
      have hm := segsOf_marker seg (by rw [hs]; simp)
      obtain ⟨w, u, hsege, hw⟩ := headMarker_iff.mp hm
      rw [List.flatten_cons, hsege]
      rfl
  have hfilter : (splitSections (updateFullContentFromChunks C)).filter
      (fun s => !(jsTrim s).isEmpty) = segsOf C := by
    rw [hsecs, List.filter_eq_self]
    intro seg hseg
    rw [marker_trim_ne (segsOf_marker seg hseg)]
    rfl
  rw [parseContent_main hraw
    (by rw [hfilter, segsOf_len]; omega)]
  rw [hfilter, List.map_map]
  have hcomp : (tcOf ∘ fun p : ℕ × JStr =>
      ({ id := jstr ("chunk-" ++ toString p.1),
         title := jsTrim (replaceFirstHHH ((splitNl (jsTrim p.2)).headD [])),
         content := jsTrim (joinNl (splitNl (jsTrim p.2)).tail) } :
        GeneratedContentChunk)) =
      ((fun sec : JStr =>
        (jsTrim (replaceFirstHHH ((splitNl (jsTrim sec)).headD [])),
         jsTrim (joinNl (splitNl (jsTrim sec)).tail))) ∘ Prod.snd) := by
    funext p
    rfl
  rw [hcomp, ← List.map_map, List.enum_map_snd, segs_map hwf]

/-- Boundary decomposition: an occurrence of a needle inside a
concatenation lies in the left part, in the right part, or spans the
boundary with a proper split of the needle. -/
theorem inf_append_cases {n a b : JStr} (h : n <:+: a ++ b) :
    n <:+: a ∨ n <:+: b ∨
      ∃ k, 0 < k ∧ k < n.length ∧ (n.take k <:+ a) ∧ (n.drop k <+: b) := by
  obtain ⟨s, t, hst⟩ := h
  by_cases h1 : a.length ≤ s.length
  · right; left
    have hb : b = (s ++ n ++ t).drop a.length := by
      rw [hst, List.drop_left]
    rw [List.drop_append_of_le_length (by simp only [List.length_append]; omega),
      List.drop_append_of_le_length h1] at hb
    exact ⟨s.drop a.length, t, hb.symm⟩
  · by_cases h2 : s.length + n.length ≤ a.length
    · left
      have ha : a = (s ++ n ++ t).take a.length := by
        rw [hst, List.take_left]
      rw [show a.length = (s ++ n).length + (a.length - s.length - n.length) from
        by simp only [List.length_append]; omega, List.take_append] at ha
      exact ⟨s, t.take (a.length - s.length - n.length), by rw [← ha]⟩
    · right; right
      refine ⟨a.length - s.length, by omega, by omega, ?_, ?_⟩
      · have ha : a = (s ++ n ++ t).take a.length := by
          rw [hst, List.take_left]
        rw [List.take_append_of_le_length
          (by simp only [List.length_append]; omega)] at ha
        rw [show a.length = s.length + (a.length - s.length) from by omega,
          List.take_append] at ha
        exact ⟨s, ha.symm⟩
      · have hb : b = (s ++ n ++ t).drop a.length := by
          rw [hst, List.drop_left]
        rw [List.drop_append_of_le_length
          (by simp only [List.length_append]; omega)] at hb
        rw [show a.length = s.length + (a.length - s.length) from by omega,
          List.drop_append] at hb
        exact ⟨t, hb.symm⟩

/-- The head of a nonempty needle is in any nonempty take of it. -/
theorem head_mem_take {n : JStr} {k : ℕ} (hn : n ≠ []) (hk : 0 < k) :
    n.headD ' ' ∈ n.take k := by
  cases n with
  | nil => exact absurd rfl hn
  | cons c t =>
    cases k with
    | zero => omega
    | succ k' =>
      rw [List.take_succ_cons]
      simp

/-- The head of a nonempty needle is in the needle. -/
theorem head_mem {n : JStr} (hn : n ≠ []) : n.headD ' ' ∈ n := by
  cases n with
  | nil => exact absurd rfl hn
  | cons c t => simp

/-- A needle whose safety conditions hold on every piece never occurs in
the rendered prompt. -/
theorem not_inf_render {n : JStr} (hn : n ≠ []) :
    ∀ ps : List PPiece, (∀ q ∈ ps, pieceOkP n q) → ¬ (n <:+: render ps) := by
  intro ps
  induction ps with
  | nil =>
    intro _ h
    obtain ⟨s, t, hst⟩ := h
    have h2 := List.append_eq_nil.mp hst
    exact hn (List.append_eq_nil.mp h2.1).2
  | cons q rest ih =>
    intro hok hinf
    have hrender : render (q :: rest) = pval q ++ render rest := by
      simp [render]
    rw [hrender] at hinf
    rcases inf_append_cases hinf with h1 | h2 | ⟨k, hk0, hklen, hsuf, hpre⟩
    · cases q with
      | fixd s =>
        have hco : fixedOkP n s := hok (PPiece.fixd s) (by simp)
        exact hco.1 h1
      | fld s =>
        have hco : n.headD ' ' ∉ s := hok (PPiece.fld s) (by simp)
        exact hco (h1.subset (head_mem hn))
    · exact ih (fun x hx => hok x (by simp [hx])) h2
    · cases q with
      | fixd s =>
        have hco : fixedOkP n s := hok (PPiece.fixd s) (by simp)
        exact hco.2 k hk0 hklen hsuf
      | fld s =>
        have hco : n.headD ' ' ∉ s := hok (PPiece.fld s) (by simp)
        exact hco (hsuf.subset (head_mem_take hn hk0))

/-- Soundness of the boolean piece-safety check for fixed pieces. -/
theorem fixedOkB_ok {n s : JStr} (h : fixedOkB n s = true) : fixedOkP n s := by
  rw [fixedOkB, Bool.and_eq_true] at h
  obtain ⟨h1, h2⟩ := h
  constructor
  · intro hinf
    rw [Bool.not_eq_true'] at h1
    rw [(infB_eq n s).mpr hinf] at h1
    cases h1
  · intro k hk0 hklen hsuf
    have h3 := (List.all_eq_true.mp h2) k (List.mem_range.mpr hklen)
    rw [Bool.or_eq_true] at h3
    rcases h3 with h3 | h3
    · rw [beq_iff_eq] at h3
      omega
    · rw [Bool.not_eq_true'] at h3
      rw [(sufB_eq _ s).mpr hsuf] at h3
      cases h3

/-- Rendering distributes over append. -/
theorem render_append (a b : List PPiece) :
    render (a ++ b) = render a ++ render b := by
  simp [render]

/-- Containment extends along a left append. -/
theorem inf_extL {n x : JStr} (y : JStr) (h : n <:+: x) : n <:+: y ++ x := by
  obtain ⟨s, t, rfl⟩ := h
  exact ⟨y ++ s, t, by simp⟩

/-- Containment extends along a right append. -/
theorem inf_extR {n x : JStr} (y : JStr) (h : n <:+: x) : n <:+: x ++ y := by
  obtain ⟨s, t, rfl⟩ := h
  exact ⟨s, t ++ y, by simp⟩

/-- Membership in a guarded piece block implies membership in its body. -/
theorem mem_ite_nil {α : Type} {c : Prop} [Decidable c] {l : List α} {x : α}
    (h : x ∈ if c then l else []) : x ∈ l := by
  by_cases hc : c
  · rwa [if_pos hc] at h
  · rw [if_neg hc] at h
    cases h

/-- Every piece of the parameter-echo block is safe for the SEO marker
when the echoed fields are star-free. -/
theorem paramGroup_ok {p : ContentGenerationParams}
    (hpn : '*' ∉ p.productName) (htn : '*' ∉ p.tone) (hcy : '*' ∉ p.country)
    (hcn : '*' ∉ oVal p.companyName) (hoc : '*' ∉ oVal p.occasion)
    (hbv : '*' ∉ oVal p.brandVoice) (hsk : '*' ∉ oVal p.seoKeywords) :
    ∀ q ∈ paramGroup p, pieceOkP seoMarker q := by
  intro q hq
  rw [paramGroup] at hq
  rcases List.mem_append.mp hq with hq | hqS
  · rcases List.mem_append.mp hq with hq | hqB
    · rcases List.mem_append.mp hq with hq | hqO
      · rcases List.mem_append.mp hq with hq9 | hqC
        · simp only [List.mem_cons, List.not_mem_nil, or_false] at hq9
          rcases hq9 with rfl | rfl | rfl | rfl | rfl | rfl | rfl | rfl | rfl
          · exact fixedOkB_ok (by decide)
          · exact hpn
          · exact fixedOkB_ok (by decide)
          · exact fixedOkB_ok (by decide)
          · exact htn
          · exact fixedOkB_ok (by decide)
          · exact fixedOkB_ok (by decide)
          · exact hcy
          · exact fixedOkB_ok (by decide)
        · have hq' := mem_ite_nil hqC
          simp only [List.mem_cons, List.not_mem_nil, or_false] at hq'
          rcases hq' with rfl | rfl | rfl
          · exact fixedOkB_ok (by decide)
          · exact hcn
          · exact fixedOkB_ok (by decide)
      · have hq' := mem_ite_nil hqO
        simp only [List.mem_cons, List.not_mem_nil, or_false] at hq'
        rcases hq' with rfl | rfl | rfl
        · exact fixedOkB_ok (by decide)
        · exact hoc
        · exact fixedOkB_ok (by decide)
    · have hq' := mem_ite_nil hqB
      simp only [List.mem_cons, List.not_mem_nil, or_false] at hq'
      rcases hq' with rfl | rfl | rfl
      · exact fixedOkB_ok (by decide)
      · exact hbv
      · exact fixedOkB_ok (by decide)
  · have hq' := mem_ite_nil hqS
    simp only [List.mem_cons, List.not_mem_nil, or_false] at hq'
    rcases hq' with rfl | rfl | rfl
    · exact fixedOkB_ok (by decide)
    · exact hsk
    · exact fixedOkB_ok (by decide)

/-- Every piece of the content-type dispatch block is safe for the SEO
marker when the SEO gate is not satisfied together with an SEO-hook
content type. -/
theorem switchGroup_ok {p : ContentGenerationParams}
    (hcl : '*' ∉ oVal p.contentLength) (hsr : '*' ∉ oVal p.starRating)
    (hno : ¬ (truthyO p.seoKeywords = true ∧ truthyS p.productName = true ∧
      p.contentType ∈ seoTypesL)) :
    ∀ q ∈ switchGroup p, pieceOkP seoMarker q := by
  have hseo : p.contentType ∈ seoTypesL → seoDirectiveStr p = [] := by
    intro hct
    rw [seoDirectiveStr, if_neg]
    intro hgate
    rw [Bool.and_eq_true] at hgate
    exact hno ⟨hgate.1, hgate.2, hct⟩
  intro q hq
  rw [switchGroup] at hq
  by_cases h1 : p.contentType = jstr "Product Description"
  · rw [if_pos h1] at hq
    rcases List.mem_append.mp hq with hq | hqlen
    · simp only [List.mem_cons, List.not_mem_nil, or_false] at hq
      rcases hq with rfl | rfl | rfl
      · exact fixedOkB_ok (by decide)
      · show fixedOkP seoMarker (seoDirectiveStr p)
        rw [hseo (by rw [h1]; decide)]
        exact fixedOkB_ok (by decide)
      · exact fixedOkB_ok (by decide)
    · have hq' := mem_ite_nil hqlen
      simp only [List.mem_cons, List.not_mem_nil, or_false] at hq'
      rcases hq' with rfl | rfl | rfl
      · exact fixedOkB_ok (by decide)
      · exact hcl
      · exact fixedOkB_ok (by decide)
  · rw [if_neg h1] at hq
    by_cases h2 : p.contentType = jstr "Product Reviews (3)"
    · rw [if_pos h2] at hq
      rcases List.mem_append.mp hq with hq | hqstar
      · simp only [List.mem_singleton] at hq
        subst hq
        exact fixedOkB_ok (by decide)
      · have hq' := mem_ite_nil hqstar
        simp only [List.mem_cons, List.not_mem_nil, or_false] at hq'
        rcases hq' with rfl | rfl | rfl
        · exact fixedOkB_ok (by decide)
        · exact hsr
        · exact fixedOkB_ok (by decide)
    · rw [if_neg h2] at hq
      by_cases h3 : p.contentType = jstr "Social Media Post"
      · rw [if_pos h3] at hq
        simp only [List.mem_cons, List.not_mem_nil, or_false] at hq
        rcases hq with rfl | rfl | rfl
        · exact fixedOkB_ok (by decide)
        · show fixedOkP seoMarker (seoDirectiveStr p)
          rw [hseo (by rw [h3]; decide)]
          exact fixedOkB_ok (by decide)
        · exact fixedOkB_ok (by decide)
      · rw [if_neg h3] at hq
        by_cases h4 : p.contentType = jstr "Email Campaign"
        · rw [if_pos h4] at hq
          simp only [List.mem_cons, List.not_mem_nil, or_false] at hq
          rcases hq with rfl | rfl | rfl
          · exact fixedOkB_ok (by decide)
          · show fixedOkP seoMarker (seoDirectiveStr p)
            rw [hseo (by rw [h4]; decide)]
            exact fixedOkB_ok (by decide)
          · exact fixedOkB_ok (by decide)
        · rw [if_neg h4] at hq
          by_cases h5 : p.contentType = jstr "Blog Post Intro"
          · rw [if_pos h5] at hq
            simp only [List.mem_cons, List.not_mem_nil, or_false] at hq
            rcases hq with rfl | rfl | rfl
            · exact fixedOkB_ok (by decide)
            · show fixedOkP seoMarker (seoDirectiveStr p)
              rw [hseo (by rw [h5]; decide)]
              exact fixedOkB_ok (by decide)
            · exact fixedOkB_ok (by decide)
          · rw [if_neg h5] at hq
            by_cases h6 : p.contentType = jstr "Ad Copy"
            · rw [if_pos h6] at hq
              simp only [List.mem_singleton] at hq
              subst hq
              exact fixedOkB_ok (by decide)
            · rw [if_neg h6] at hq
              simp only [List.mem_singleton] at hq
              subst hq
              exact fixedOkB_ok (by decide)

/-- Every piece of the extras block is safe for the SEO marker. -/
theorem extraGroup_ok {p : ContentGenerationParams} :
    ∀ q ∈ extraGroup p, pieceOkP seoMarker q := by
  intro q hq
  rw [extraGroup] at hq
  rcases List.mem_append.mp hq with hq | hq
  · have hq' := mem_ite_nil hq
    simp only [List.mem_singleton] at hq'
    subst hq'
    exact fixedOkB_ok (by decide)
  · have hq' := mem_ite_nil hq
    simp only [List.mem_singleton] at hq'
    subst hq'
    exact fixedOkB_ok (by decide)

/-- When the SEO gate and an SEO-hook content type do not hold together,
the non-regeneration prompt never contains the SEO marker. -/
theorem no_seo_marker {p : ContentGenerationParams} (hstar : starFree p)
    (hno : ¬ (truthyO p.seoKeywords = true ∧ truthyS p.productName = true ∧
      p.contentType ∈ seoTypesL)) :
    ¬ (seoMarker <:+: buildPrompt p none) := by
  obtain ⟨h1, h2, h3, h4, h5, h6, h7, h8, h9, h10⟩ := hstar
  show ¬ (seoMarker <:+: render (promptPieces p) ++ finalLineP)
  rw [show render (promptPieces p) ++ finalLineP =
    render (promptPieces p ++ [.fixd finalLineP]) from by
      rw [render_append]; simp [render, pval]]
  apply not_inf_render (by decide)
  intro q hq
  rcases List.mem_append.mp hq with hq | hqF
  · rw [promptPieces] at hq
    rcases List.mem_append.mp hq with hq | hqE
    · rcases List.mem_append.mp hq with hq | hqNl
      · rcases List.mem_append.mp hq with hq | hqSw
        · rcases List.mem_append.mp hq with hq | hqCt
          · rcases List.mem_append.mp hq with hq | hqTh
            · rcases List.mem_append.mp hq with hqI | hqPg
              · simp only [List.mem_singleton] at hqI
                subst hqI
                exact fixedOkB_ok (by decide)
              · exact paramGroup_ok h1 h2 h3 h5 h6 h7 h8 q hqPg
            · simp only [List.mem_singleton] at hqTh
              subst hqTh
              exact fixedOkB_ok (by decide)
          · simp only [List.mem_cons, List.not_mem_nil, or_false] at hqCt
            rcases hqCt with rfl | rfl | rfl
            · exact fixedOkB_ok (by decide)
            · exact h4
            · exact fixedOkB_ok (by decide)
        · exact switchGroup_ok h9 h10 hno q hqSw
      · simp only [List.mem_singleton] at hqNl
        subst hqNl
        exact fixedOkB_ok (by decide)
    · exact extraGroup_ok q hqE
  · simp only [List.mem_singleton] at hqF
    subst hqF
    exact fixedOkB_ok (by decide)

/-- The SEO directive appears in the dispatch block whenever the gate holds
and the content type is one of the SEO-hook types. -/
theorem seo_in_switch {p : ContentGenerationParams}
    (hgate : (truthyO p.seoKeywords && truthyS p.productName) = true)
    (hct : p.contentType ∈ seoTypesL) :
    seoDirectiveText <:+: render (switchGroup p) := by
  have hs : seoDirectiveStr p = seoDirectiveText := by
    rw [seoDirectiveStr, if_pos hgate]
  simp only [seoTypesL, List.mem_cons, List.not_mem_nil, or_false] at hct
  rcases hct with hct | hct | hct | hct
  · rw [switchGroup, if_pos hct, render_append]
    apply inf_extR
    exact ⟨pdTask, pdTask2, by simp [render, pval, hs, List.append_assoc]⟩
  · rw [switchGroup, if_neg (by rw [hct]; decide), if_neg (by rw [hct]; decide),
      if_pos hct]
    exact ⟨smpTask, smpTask2, by simp [render, pval, hs, List.append_assoc]⟩
  · rw [switchGroup, if_neg (by rw [hct]; decide), if_neg (by rw [hct]; decide),
      if_neg (by rw [hct]; decide), if_pos hct]
    exact ⟨emTask, emTask2, by simp [render, pval, hs, List.append_assoc]⟩
  · rw [switchGroup, if_neg (by rw [hct]; decide), if_neg (by rw [hct]; decide),
      if_neg (by rw [hct]; decide), if_neg (by rw [hct]; decide), if_pos hct]
    exact ⟨blogTask, blogTask2, by simp [render, pval, hs, List.append_assoc]⟩

/-- The SEO directive appears in the whole prompt whenever the gate holds
and the content type is one of the SEO-hook types. -/
theorem seo_in_prompt {p : ContentGenerationParams}
    (hgate : (truthyO p.seoKeywords && truthyS p.productName) = true)
    (hct : p.contentType ∈ seoTypesL) :
    seoDirectiveText <:+: buildPrompt p none := by
  show seoDirectiveText <:+: render (promptPieces p) ++ finalLineP
  apply inf_extR
  rw [promptPieces, render_append, render_append, render_append, render_append,
    render_append, render_append]
  apply inf_extR
  apply inf_extR
  apply inf_extL
  exact seo_in_switch hgate hct

/-- The content-type task directive appears in the whole prompt. -/
theorem task_in_prompt (p : ContentGenerationParams) :
    taskDirectiveFor p.contentType <:+: buildPrompt p none := by
  show _ <:+: render (promptPieces p) ++ finalLineP
  apply inf_extR
  rw [promptPieces, render_append, render_append, render_append, render_append,
    render_append, render_append]
  apply inf_extR
  apply inf_extR
  apply inf_extL
  rw [taskDirectiveFor, switchGroup]
  by_cases h1 : p.contentType = jstr "Product Description"
  · rw [if_pos h1, if_pos h1, render_append]
    apply inf_extR
    exact ⟨[], seoDirectiveStr p ++ pdTask2, by simp [render, pval, List.append_assoc]⟩
  · rw [if_neg h1, if_neg h1]
    by_cases h2 : p.contentType = jstr "Product Reviews (3)"
    · rw [if_pos h2, if_pos h2, render_append]
      apply inf_extR
      exact ⟨[], [], by simp [render, pval]⟩
    · rw [if_neg h2, if_neg h2]
      by_cases h3 : p.contentType = jstr "Social Media Post"
      · rw [if_pos h3, if_pos h3]
        exact ⟨[], seoDirectiveStr p ++ smpTask2, by simp [render, pval, List.append_assoc]⟩
      · rw [if_neg h3, if_neg h3]
        by_cases h4 : p.contentType = jstr "Email Campaign"
        · rw [if_pos h4, if_pos h4]
          exact ⟨[], seoDirectiveStr p ++ emTask2, by simp [render, pval, List.append_assoc]⟩
        · rw [if_neg h4, if_neg h4]
          by_cases h5 : p.contentType = jstr "Blog Post Intro"
          · rw [if_pos h5, if_pos h5]
            exact ⟨[], seoDirectiveStr p ++ blogTask2,
              by simp [render, pval, List.append_assoc]⟩
          · rw [if_neg h5, if_neg h5]
            by_cases h6 : p.contentType = jstr "Ad Copy"
            · rw [if_pos h6, if_pos h6]
              exact ⟨[], [], by simp [render, pval]⟩
            · rw [if_neg h6, if_neg h6]
              exact ⟨[], [], by simp [render, pval]⟩

/-- Unfolding of the prompt builder in regeneration mode. -/
theorem buildPrompt_regen (p : ContentGenerationParams)
    (k : GeneratedContentChunk) :
    buildPrompt p (some k) =
      wrapA ++ k.title ++ wrapB ++ render (promptPieces p) ++ jstr "\n" := rfl

/-- Unfolding of the prompt builder in normal mode. -/
theorem buildPrompt_none (p : ContentGenerationParams) :
    buildPrompt p none = render (promptPieces p) ++ finalLineP := rfl

/-- The regeneration wrapper is never equal to the normal prompt. -/
theorem regen_ne (p : ContentGenerationParams) (k : GeneratedContentChunk) :
    buildPrompt p (some k) ≠ buildPrompt p none := by
  intro h
  have hwa : 19 ≤ wrapA.length := by decide
  have hwi : 19 ≤ introP.length := by decide
  have h1 : (buildPrompt p (some k)).take 19 = wrapA.take 19 := by
    rw [buildPrompt_regen]
    rw [List.take_append_of_le_length (by simp only [List.length_append]; omega),
      List.take_append_of_le_length (by simp only [List.length_append]; omega),
      List.take_append_of_le_length (by simp only [List.length_append]; omega),
      List.take_append_of_le_length hwa]
  have h2 : (buildPrompt p none).take 19 = introP.take 19 := by
    rw [buildPrompt_none, promptPieces, render_append, render_append, render_append,
      render_append, render_append, render_append]
    have hri : render [PPiece.fixd introP] = introP ++ [] := rfl
    have hlen : 19 ≤ (render [PPiece.fixd introP]).length := by
      rw [hri]
      simp only [List.length_append, List.length_nil]
      omega
    rw [List.take_append_of_le_length (by simp only [List.length_append]; omega),
      List.take_append_of_le_length (by simp only [List.length_append]; omega),
      List.take_append_of_le_length (by simp only [List.length_append]; omega),
      List.take_append_of_le_length (by simp only [List.length_append]; omega),
      List.take_append_of_le_length (by simp only [List.length_append]; omega),
      List.take_append_of_le_length (by simp only [List.length_append]; omega),
      List.take_append_of_le_length hlen, hri]
    rw [List.take_append_of_le_length hwi]
  rw [h, h2] at h1
  exact absurd h1 (by decide)

/-- The target chunk title appears literally in the regeneration wrapper. -/
theorem title_in_regen (p : ContentGenerationParams) (k : GeneratedContentChunk) :
    k.title <:+: buildPrompt p (some k) := by
  rw [buildPrompt_regen]
  exact ⟨wrapA, wrapB ++ render (promptPieces p) ++ jstr "\n",
    by simp [List.append_assoc]⟩

/-- The whole base prompt appears in the regeneration wrapper. -/
theorem base_in_regen (p : ContentGenerationParams) (k : GeneratedContentChunk) :
    render (promptPieces p) <:+: buildPrompt p (some k) := by
  rw [buildPrompt_regen]
  exact ⟨wrapA ++ k.title ++ wrapB, jstr "\n", by simp [List.append_assoc]⟩

/-- The raw-replacement instruction appears in the regeneration wrapper. -/
theorem instr_in_regen (p : ContentGenerationParams) (k : GeneratedContentChunk) :
    criticalInstrText <:+: buildPrompt p (some k) := by
  have h1 : criticalInstrText <:+: wrapB := (infB_eq _ _).mp (by decide)
  rw [buildPrompt_regen]
  obtain ⟨s, t, hst⟩ := h1
  exact ⟨wrapA ++ k.title ++ s, t ++ render (promptPieces p) ++ jstr "\n",
    by rw [← hst]; simp [List.append_assoc]⟩

/-- C1 counterexample: for a single well-formed chunk, chunking the
reassembled text does not return the chunk — the single-segment fallback
produces a "Generated Content" chunk whose body still carries the heading
line, so the round-trip law fails as stated. -/
theorem c1_counterexample :
    (parseContent (updateFullContentFromChunks
      [⟨jstr "id0", jstr "Headline", jstr "pretty body"⟩])).map tcOf ≠
      [(jstr "Headline", jstr "pretty body")] := by decide

/-- C1 (amended): for every chunk list of length at least two whose titles
and bodies are nonempty, trimmed, free of `###`, and whose titles are
single-line, chunking the reassembled text returns a chunk list with the
same length, order, titles and bodies. -/
theorem c1_round_trip (C : List GeneratedContentChunk) (hlen : 2 ≤ C.length)
    (hwf : ∀ c ∈ C, wfChunk c) :
    (parseContent (updateFullContentFromChunks C)).map tcOf = C.map tcOf :=
  roundTrip_core hlen hwf

/-- C1 witness: the round-trip law holds on a concrete two-chunk list. -/
theorem c1_round_trip_witness :
    2 ≤ wfChunks.length ∧ (∀ c ∈ wfChunks, wfChunk c) ∧
    (parseContent (updateFullContentFromChunks wfChunks)).map tcOf =
      wfChunks.map tcOf :=
  ⟨by decide, by decide, c1_round_trip wfChunks (by decide) (by decide)⟩

/-- C2 counterexample: with nonempty seoKeywords and productName but the
Ad Copy content type, the prompt does not contain the SEO-hook directive,
so the claimed equivalence fails. -/
theorem c2_counterexample :
    truthyO adSeoParams.seoKeywords = true ∧
    truthyS adSeoParams.productName = true ∧
    ¬ (seoDirectiveText <:+: buildPrompt adSeoParams none) := by
  refine ⟨by decide, by decide, ?_⟩
  intro h
  have hm : seoMarker <:+: buildPrompt adSeoParams none :=
    List.IsInfix.trans ((infB_eq _ _).mp (by decide)) h
  have hf : infB seoMarker (buildPrompt adSeoParams none) = false := by decide
  rw [(infB_eq _ _).mpr hm] at hf
  cases hf

/-- C2 (amended): for parameters whose interpolated fields contain no `*`
character, the prompt contains the SEO-hook directive iff seoKeywords and
productName are both non-empty and the content type is one of the four
SEO-hook types (Product Description, Social Media Post, Email Campaign,
Blog Post Intro). -/
theorem c2_seo_gate (p : ContentGenerationParams) (hstar : starFree p) :
    (seoDirectiveText <:+: buildPrompt p none) ↔
      (truthyO p.seoKeywords = true ∧ truthyS p.productName = true ∧
        p.contentType ∈ seoTypesL) := by
  constructor
  · intro h
    by_contra hno
    have hm : seoMarker <:+: buildPrompt p none :=
      List.IsInfix.trans ((infB_eq _ _).mp (by decide)) h
    exact no_seo_marker hstar hno hm
  · rintro ⟨hseo, hpn, hct⟩
    exact seo_in_prompt (by rw [Bool.and_eq_true]; exact ⟨hseo, hpn⟩) hct

/-- C2 witness: the equivalence instantiated at concrete star-free
parameters with the Blog Post Intro content type. -/
theorem c2_seo_gate_witness :
    starFree blogSeoParams ∧
    ((seoDirectiveText <:+: buildPrompt blogSeoParams none) ↔
      (truthyO blogSeoParams.seoKeywords = true ∧
        truthyS blogSeoParams.productName = true ∧
        blogSeoParams.contentType ∈ seoTypesL)) :=
  ⟨by decide, c2_seo_gate blogSeoParams (by decide)⟩

/-- C3 counterexample: the regeneration wrapper does not contain the full
non-regeneration prompt, because the embedded base prompt lacks the
closing "Now, generate the content based on these instructions." line. -/
theorem c3_counterexample :
    ¬ (buildPrompt auroraParams none <:+:
        buildPrompt auroraParams (some sampleChunk)) := by
  intro h
  have hn : jstr "\nNow, generate the content" <:+: buildPrompt auroraParams none := by
    rw [buildPrompt_none]
    apply inf_extL
    exact ⟨[], jstr " based on these instructions.", by decide⟩
  have h2 := hn.trans h
  have hf : infB (jstr "\nNow, generate the content")
      (buildPrompt auroraParams (some sampleChunk)) = false := by decide
  rw [(infB_eq _ _).mpr h2] at hf
  cases hf

/-- C3 (amended): with a target chunk, the prompt builder returns a
wrapper distinct from the non-regeneration prompt; the wrapper contains
the target chunk title literally, contains the instruction to return only
the raw replacement text with no heading, and embeds as context the whole
base prompt — which is the non-regeneration prompt minus its closing
"Now, generate..." line. -/
theorem c3_regen_wrap (p : ContentGenerationParams) (k : GeneratedContentChunk) :
    buildPrompt p (some k) ≠ buildPrompt p none
    ∧ k.title <:+: buildPrompt p (some k)
    ∧ criticalInstrText <:+: buildPrompt p (some k)
    ∧ render (promptPieces p) <:+: buildPrompt p (some k)
    ∧ buildPrompt p none = render (promptPieces p) ++ finalLineP :=
  ⟨regen_ne p k, title_in_regen p k, instr_in_regen p k, base_in_regen p k,
    buildPrompt_none p⟩

/-- C4 counterexample: an occurrence of `### ` that is not at a line
beginning does create a split — `"x ### y"` parses into two chunks, not
the single fallback chunk the claim entails. -/
theorem c4_counterexample :
    parseContent (jstr "x ### y") =
      [⟨jstr "chunk-0", jstr "x", []⟩, ⟨jstr "chunk-1", jstr "y", []⟩] ∧
    parseContent (jstr "x ### y") ≠
      [⟨jstr "chunk-0", jstr "Generated Content", jstr "x ### y"⟩] := by
  exact ⟨by decide, by decide⟩

/-- C4 (amended): the splitter cuts its input exactly before every
occurrence of `###` followed by whitespace — at any position, not only at
line beginnings, except at the very start of the text: the segments
concatenate back to the input, no segment has a marker occurrence at a
positive offset, and every segment after the first starts with a marker.
(`parseContent` then discards the whitespace-only segments via its
filter.) -/
theorem c4_split_positions (s : JStr) :
    ((splitSections s).flatten = s)
    ∧ (∀ sec ∈ splitSections s, ∀ j, 1 ≤ j → isHeadMarker (sec.drop j) = false)
    ∧ (∀ sec ∈ (splitSections s).tail, isHeadMarker sec = true) :=
  splitSections_spec s

/-- C4 witness: the characterization instantiated on `"x ### y"`, whose
mid-line marker heads the second segment. -/
theorem c4_split_positions_witness :
    isHeadMarker (jstr "### y") = true ∧
    isHeadMarker ((jstr "x ").drop 1) = false :=
  ⟨(c4_split_positions (jstr "x ### y")).2.2 (jstr "### y") (by decide),
   (c4_split_positions (jstr "x ### y")).2.1 (jstr "x ") (by decide) 1 (by decide)⟩

/-- C5: when the one-shot generation call returns a missing or empty text,
the regeneration service fails with the dedicated empty-response error
(wrapped by the catch block) instead of returning a value, and the UI
handler leaves the chunk list unchanged and emits no new raw text. -/
theorem c5_empty_regen (call : JStr → Except JStr (Option JStr))
    (p : ContentGenerationParams) (chunks : List GeneratedContentChunk)
    (k : GeneratedContentChunk) (t : Option JStr)
    (hcall : call (buildPrompt p (some k)) = .ok t)
    (ht : truthyO t = false) :
    regenerateContentChunkM call p k = .error (regenFailPre ++ emptyRespMsg)
    ∧ handleRegenerateChunkM call p chunks k = (chunks, none) := by
  have h1 : regenerateContentChunkM call p k =
      .error (regenFailPre ++ emptyRespMsg) := by
    unfold regenerateContentChunkM
    rw [hcall]
    show (if truthyO t = true then Except.ok (jsTrim (oVal t))
      else Except.error (regenFailPre ++ emptyRespMsg)) = _
    rw [if_neg (by rw [ht]; simp)]
  refine ⟨h1, ?_⟩
  unfold handleRegenerateChunkM
  rw [h1]

/-- C5 witness: the failure path instantiated with a call that reports a
missing response text. -/
theorem c5_empty_regen_witness :
    regenerateContentChunkM callNoText auroraParams sampleChunk =
      .error (regenFailPre ++ emptyRespMsg)
    ∧ handleRegenerateChunkM callNoText auroraParams sampleChunks sampleChunk =
      (sampleChunks, none) :=
  c5_empty_regen callNoText auroraParams sampleChunks sampleChunk none rfl rfl

/-- C6 counterexample: for heading-less raw text, a no-op edit does not
reproduce the raw text — reassembly prepends the fallback heading. -/
theorem c6_counterexample :
    updateFullContentFromChunks
      (handleUpdateChunk (parseContent (jstr "hello")) (jstr "chunk-0")
        (jstr "hello")) ≠ jstr "hello" := by decide

/-- C6 (amended): editing one displayed chunk's body to its current value
leaves the chunk list unchanged, so the emitted raw text equals the
reassembly of the displayed chunk list; it equals the pre-edit raw text
exactly when that raw text is already in reassembled canonical form. -/
theorem c6_noop_edit (raw : JStr) (k : GeneratedContentChunk)
    (hid : ∀ c ∈ parseContent raw, c.id = k.id → c.content = k.content)
    (hcanon : updateFullContentFromChunks (parseContent raw) = raw) :
    updateFullContentFromChunks
      (handleUpdateChunk (parseContent raw) k.id k.content) = raw := by
  have h1 : handleUpdateChunk (parseContent raw) k.id k.content =
      parseContent raw := by
    rw [handleUpdateChunk]
    have hpt : ∀ c ∈ parseContent raw,
        (if c.id = k.id then { c with content := k.content } else c) = id c := by
      intro c hc
      by_cases hcid : c.id = k.id
      · rw [if_pos hcid]
        have hcc := hid c hc hcid
        cases c
        simp_all [id]
      · rw [if_neg hcid]
        rfl
    rw [List.map_congr_left hpt, List.map_id]
  rw [h1, hcanon]

/-- C6 witness: the no-op edit law on concrete canonical raw text. -/
theorem c6_noop_edit_witness :
    updateFullContentFromChunks
      (handleUpdateChunk
        (parseContent (jstr "### Intro\n\nfirst\n\n### Details\n\nsecond"))
        (jstr "chunk-0") (jstr "first")) =
      jstr "### Intro\n\nfirst\n\n### Details\n\nsecond" :=
  c6_noop_edit (jstr "### Intro\n\nfirst\n\n### Details\n\nsecond")
    ⟨jstr "chunk-0", jstr "Intro", jstr "first"⟩
    (by decide) (by decide)

/-- C7: for every parameter value, the prompt contains the task directive
that the dispatch table assigns to its content type — the six defined
types map to their six specific directives and every other value maps to
the generic fallback directive. -/
theorem c7_dispatch (p : ContentGenerationParams) :
    taskDirectiveFor p.contentType <:+: buildPrompt p none
    ∧ (p.contentType ∉ contentTypesL → taskDirectiveFor p.contentType = fallbackTask)
    ∧ taskDirectiveFor (jstr "Product Description") = pdTask
    ∧ taskDirectiveFor (jstr "Product Reviews (3)") = revTask
    ∧ taskDirectiveFor (jstr "Social Media Post") = smpTask
    ∧ taskDirectiveFor (jstr "Email Campaign") = emTask
    ∧ taskDirectiveFor (jstr "Blog Post Intro") = blogTask
    ∧ taskDirectiveFor (jstr "Ad Copy") = adTask := by
  refine ⟨task_in_prompt p, ?_, by decide, by decide, by decide, by decide,
    by decide, by decide⟩
  intro hct
  rw [taskDirectiveFor,
    if_neg (fun h => hct (by rw [h]; decide)),
    if_neg (fun h => hct (by rw [h]; decide)),
    if_neg (fun h => hct (by rw [h]; decide)),
    if_neg (fun h => hct (by rw [h]; decide)),
    if_neg (fun h => hct (by rw [h]; decide)),
    if_neg (fun h => hct (by rw [h]; decide))]

/-- C7 witness: an unrecognized content type receives the fallback
directive, which appears in the built prompt. -/
theorem c7_dispatch_witness :
    fallbackTask <:+: buildPrompt recipeParams none ∧
    taskDirectiveFor recipeParams.contentType = fallbackTask := by
  have h := c7_dispatch recipeParams
  have h2 := h.2.1 (by decide)
  exact ⟨by rw [← h2]; exact h.1, h2⟩

/-- C8: parsing a blank (empty or whitespace-only) string yields no
chunks, and parsing a non-blank input whose filtered split has at most one
segment yields exactly one chunk with the fixed title "Generated Content"
and the full trimmed input as body. -/
theorem c8_fallback (raw : JStr) :
    (jsTrim raw = [] → parseContent raw = [])
    ∧ (jsTrim raw ≠ [] →
        ((splitSections raw).filter (fun s => !(jsTrim s).isEmpty)).length ≤ 1 →
        parseContent raw =
          [{ id := jstr "chunk-0", title := jstr "Generated Content",
             content := jsTrim raw }]) := by
  constructor
  · exact parseContent_ws
  · intro ht hlen
    apply parseContent_fallback ?_ ?_ hlen
    · cases raw with
      | nil => exact absurd rfl ht
      | cons c r => rfl
    · intro h2
      exact ht (List.isEmpty_iff.mp h2)

/-- C8 witness: the fallback on plain heading-less text and the empty
result on whitespace-only text. -/
theorem c8_fallback_witness :
    parseContent (jstr "just plain text, no heading") =
      [{ id := jstr "chunk-0", title := jstr "Generated Content",
         content := jstr "just plain text, no heading" }] ∧
    parseContent (jstr "   ") = [] := by
  constructor
  · exact ((c8_fallback (jstr "just plain text, no heading")).2
      (by decide) (by decide)).trans (by decide)
  · exact (c8_fallback (jstr "   ")).1 (by decide)

/-- C9: the two-heading input splits into exactly the two titled chunks in
order with their bodies. -/
theorem c9_heading_split :
    parseContent (jstr "### A\nbody1\n### B\nbody2") =
      [⟨jstr "chunk-0", jstr "A", jstr "body1"⟩,
       ⟨jstr "chunk-1", jstr "B", jstr "body2"⟩] := by decide

/-- C10 counterexample: a whitespace-only response text is truthy, so
regeneration succeeds and returns the empty string — a successful result
that is not non-empty. -/
theorem c10_counterexample :
    regenerateContentChunkM callWsText auroraParams sampleChunk =
      Except.ok [] := rfl

/-- C10 (amended): every chunk produced by the parser has a trimmed title
and body, and every successful regeneration result is trimmed — though it
may be empty when the response text is whitespace-only. -/
theorem c10_trimmed (raw : JStr) :
    (∀ ch ∈ parseContent raw,
      jsTrim ch.title = ch.title ∧ jsTrim ch.content = ch.content)
    ∧ (∀ (call : JStr → Except JStr (Option JStr))
        (p : ContentGenerationParams) (k : GeneratedContentChunk) (r : JStr),
        regenerateContentChunkM call p k = .ok r → jsTrim r = r) := by
  constructor
  · intro ch hch
    simp only [parseContent] at hch
    split at hch
    · cases hch
    · split at hch
      · simp only [List.mem_singleton] at hch
        subst hch
        refine ⟨?_, jsTrim_idem raw⟩
        show jsTrim (jstr "Generated Content") = jstr "Generated Content"
        decide
      · obtain ⟨q, hq, rfl⟩ := List.mem_map.mp hch
        exact ⟨jsTrim_idem _, jsTrim_idem _⟩
  · intro call p k r
    unfold regenerateContentChunkM
    rcases hcall : call (buildPrompt p (some k)) with m | t
    · intro hr
      have hr2 : Except.error (regenFailPre ++ m) = Except.ok r := hr
      cases hr2
    · intro hr
      have hr2 : (if truthyO t = true then Except.ok (jsTrim (oVal t))
          else Except.error (regenFailPre ++ emptyRespMsg)) = Except.ok r := hr
      by_cases htt : truthyO t = true
      · rw [if_pos htt] at hr2
        injection hr2 with hr3
        rw [← hr3]
        exact jsTrim_idem _
      · rw [if_neg htt] at hr2
        cases hr2

/-- C10 witness: trimmedness of the fallback chunk fields and of a
successful regeneration result on a padded response. -/
theorem c10_trimmed_witness :
    (jsTrim (jstr "Generated Content") = jstr "Generated Content" ∧
      jsTrim (jstr "hello") = jstr "hello") ∧
    jsTrim (jstr "new body") = jstr "new body" := by
  constructor
  · exact (c10_trimmed (jstr "hello")).1
      ⟨jstr "chunk-0", jstr "Generated Content", jstr "hello"⟩ (by decide)
  · exact (c10_trimmed (jstr "hello")).2 callPadText auroraParams sampleChunk
      (jstr "new body") rfl
